import Mathlib

/-!
Verification development for the instance-coordination subsystem of
`tensorboard/manager.py`: a filesystem-backed registry of running
TensorBoard instances, a cache-key function over (working directory,
argument list), an instance finder, and the `start` launch coordinator.

The Python code is shallowly embedded: the filesystem is an explicit
`FS` state threaded through each operation, fallible operations return
`Except PyErr`, and external events (the spawned child process, the
wall clock, concurrent registry writers) are supplied as explicit
schedules.  Library functions used by the source (`json.dumps`,
`json.loads`, `base64.b64encode`) are modelled down to the character
level, faithful to CPython's behaviour on the value shapes this module
serializes (flat objects whose values are strings and integers, and
arrays of strings), including `ensure_ascii` escaping.
-/

deriving instance DecidableEq for Except

/-- Python byte/character strings are modelled as lists of characters. -/
abbrev Str := List Char

/-- Python exceptions raised by this module: `OSError` with an errno
(`FileExistsError`, `FileNotFoundError`), and `TypeError` with a message. -/
inductive PyErr where
  | osError (errno : Nat)
  | typeError (msg : String)
deriving DecidableEq

/-- `errno.EEXIST`. -/
def EEXIST : Nat := 17

/-- `errno.ENOENT`. -/
def ENOENT : Nat := 2

/-! ### JSON string escaping (`json.dumps` with `ensure_ascii=True`) -/

/-- Lowercase hexadecimal digit, as used by Python's `\uXXXX` escapes. -/
def hexDigit : Nat → Char
  | 0 => '0' | 1 => '1' | 2 => '2' | 3 => '3' | 4 => '4'
  | 5 => '5' | 6 => '6' | 7 => '7' | 8 => '8' | 9 => '9'
  | 10 => 'a' | 11 => 'b' | 12 => 'c' | 13 => 'd' | 14 => 'e' | 15 => 'f'
  | _ => '0'

/-- A `\uXXXX` escape for a code unit `m < 0x10000`. -/
def uEsc (m : Nat) : Str :=
  ['\\', 'u', hexDigit (m / 4096 % 16), hexDigit (m / 256 % 16),
   hexDigit (m / 16 % 16), hexDigit (m % 16)]

/-- Escape of one character, as produced by `json.dumps` with
`ensure_ascii=True`: the two-character escapes for `"`, `\` and the
control characters with short names, printable ASCII kept literally,
and `\uXXXX` escapes (with surrogate pairs above the BMP) otherwise. -/
def escapeChar (c : Char) : Str :=
  if c = '"' then ['\\', '"']
  else if c = '\\' then ['\\', '\\']
  else if c = '\x08' then ['\\', 'b']
  else if c = '\x0c' then ['\\', 'f']
  else if c = '\n' then ['\\', 'n']
  else if c = '\x0d' then ['\\', 'r']
  else if c = '\t' then ['\\', 't']
  else if 0x20 ≤ c.toNat ∧ c.toNat ≤ 0x7e then [c]
  else if c.toNat < 0x10000 then uEsc c.toNat
  else uEsc (0xD800 + (c.toNat - 0x10000) / 0x400) ++
       uEsc (0xDC00 + (c.toNat - 0x10000) % 0x400)

/-- Escape of a whole string body. -/
def escapeList : List Char → Str
  | [] => []
  | c :: cs => escapeChar c ++ escapeList cs

/-- JSON serialization of a string: quote, escaped body, quote. -/
def jstr (s : String) : Str :=
  '"' :: escapeList s.data ++ ['"']

/-! ### Integer serialization (`json.dumps` of a Python `int`) -/

/-- Decimal digit character. -/
def digitChar : Nat → Char
  | 0 => '0' | 1 => '1' | 2 => '2' | 3 => '3' | 4 => '4'
  | 5 => '5' | 6 => '6' | 7 => '7' | 8 => '8' | 9 => '9'
  | _ => '0'

/-- Decimal digits, fuel-bounded so that the kernel can evaluate it. -/
def natCharsAux : Nat → Nat → Str
  | 0, _ => []
  | fuel + 1, n =>
    if n < 10 then [digitChar n]
    else natCharsAux fuel (n / 10) ++ [digitChar (n % 10)]

/-- Decimal digits of a natural number, most significant first. -/
def natChars (n : Nat) : Str := natCharsAux (n + 1) n

/-- Decimal rendering of a Python `int`. -/
def intChars (n : Int) : Str :=
  if n < 0 then '-' :: natChars n.natAbs else natChars n.toNat

/-! ### Base64 (`base64.b64encode`, RFC 4648 with padding) -/

/-- The base64 alphabet. -/
def b64table : List Char :=
  ['A','B','C','D','E','F','G','H','I','J','K','L','M','N','O','P',
   'Q','R','S','T','U','V','W','X','Y','Z',
   'a','b','c','d','e','f','g','h','i','j','k','l','m','n','o','p',
   'q','r','s','t','u','v','w','x','y','z',
   '0','1','2','3','4','5','6','7','8','9','+','/']

/-- Alphabet character of a 6-bit value. -/
def b64char (n : Nat) : Char := b64table.getD n 'A'

/-- `base64.b64encode` over a byte sequence. -/
def b64encodeBytes : List Nat → List Char
  | [] => []
  | [b0] => [b64char (b0 / 4), b64char (b0 % 4 * 16), '=', '=']
  | [b0, b1] => [b64char (b0 / 4), b64char (b0 % 4 * 16 + b1 / 16),
                 b64char (b1 % 16 * 4), '=']
  | b0 :: b1 :: b2 :: rest =>
      b64char (b0 / 4) :: b64char (b0 % 4 * 16 + b1 / 16) ::
      b64char (b1 % 16 * 4 + b2 / 64) :: b64char (b2 % 64) ::
      b64encodeBytes rest

/-! ### Python values and `json.dumps` for the cache-key datum -/

/-- The Python values `cache_key` can receive as `arguments`: strings
and (possibly nested) lists and tuples of such values. -/
inductive PyVal where
  | str (s : String)
  | list (xs : List PyVal)
  | tuple (xs : List PyVal)

mutual

/-- `repr` of a Python value (used in the `TypeError` message; string
escaping inside `repr` is not modelled). -/
def pyReprVal : PyVal → String
  | .str s => "\x27" ++ s ++ "\x27"
  | .list xs => "[" ++ pyReprItems xs ++ "]"
  | .tuple xs => "(" ++ pyReprItems xs ++ (if xs.length = 1 then ",)" else ")")

/-- Comma-separated `repr` of the elements of a list or tuple. -/
def pyReprItems : List PyVal → String
  | [] => ""
  | [x] => pyReprVal x
  | x :: y :: xs => pyReprVal x ++ ", " ++ pyReprItems (y :: xs)

end

mutual

/-- `json.dumps` of a Python value with `separators=(",", ":")`
(compact form, as used by `cache_key`). -/
def dumpsVal : PyVal → Str
  | .str s => jstr s
  | .list xs => '[' :: dumpsItems xs ++ [']']
  | .tuple xs => '[' :: dumpsItems xs ++ [']']

/-- Comma-separated `json.dumps` of the elements of an array. -/
def dumpsItems : List PyVal → Str
  | [] => []
  | [x] => dumpsVal x
  | x :: y :: xs => dumpsVal x ++ ',' :: dumpsItems (y :: xs)

end

/-- The fixed skeleton on the left of the cache-key datum:
`json.dumps({"working_directory": ..., "arguments": ...}, sort_keys=True,
separators=(",", ":"))` starts with `{"arguments":`. -/
def litDatumOpen : Str := "\x7b\"arguments\":".data

/-- The skeleton between the argument array and the working directory. -/
def litDatumMid : Str := ",\"working_directory\":".data

/-- Compact key-sorted dump of the datum
`{"working_directory": wd, "arguments": v}`. -/
def dumpsDatum (wd : String) (v : PyVal) : Str :=
  litDatumOpen ++ dumpsVal v ++ litDatumMid ++ jstr wd ++ ['\x7d']

/-- The `TypeError` message raised for a non-sequence `arguments`. -/
def cacheKeyTypeErrMsg (v : PyVal) : String :=
  "\x27arguments\x27 should be a list of arguments, but found: " ++
  pyReprVal v ++ " (use `shlex.split` if given a string)"

/-- `manager.cache_key`: reject a non-list, non-tuple `arguments` with
a `TypeError`; otherwise base64-encode the canonical key-sorted compact
JSON dump of the datum.  A pure function: it takes no filesystem state
and performs no I/O. -/
def cacheKey (working_directory : String) (arguments : PyVal) :
    Except PyErr String :=
  match arguments with
  | .list _ | .tuple _ =>
      .ok (String.mk (b64encodeBytes
        ((dumpsDatum working_directory arguments).map Char.toNat)))
  | .str _ => .error (.typeError (cacheKeyTypeErrMsg arguments))

/-! ### The instance descriptor and its file encoding -/

/-- `TensorboardInfo`, the descriptor of one running instance, with
the field types recorded by the data model (§3 of the spec). -/
structure TensorboardInfo where
  version : String
  start_time : Int
  pid : Int
  port : Int
  path_prefix : String
  logdir : String
  db : String
  cache_key : String
deriving DecidableEq

/-- `json.dumps(info._asdict(), sort_keys=True, indent=4)` opening:
up to and including the first key, `cache_key`. -/
def kOpen : Str := "\x7b\n    \"cache_key\": ".data

/-- Separator before the `db` field. -/
def kDb : Str := ",\n    \"db\": ".data

/-- Separator before the `logdir` field. -/
def kLogdir : Str := ",\n    \"logdir\": ".data

/-- Separator before the `path_prefix` field. -/
def kPathPre : Str := ",\n    \"path_prefix\": ".data

/-- Separator before the `pid` field. -/
def kPid : Str := ",\n    \"pid\": ".data

/-- Separator before the `port` field. -/
def kPort : Str := ",\n    \"port\": ".data

/-- Separator before the `start_time` field. -/
def kStart : Str := ",\n    \"start_time\": ".data

/-- Separator before the `version` field. -/
def kVersion : Str := ",\n    \"version\": ".data

/-- Closing of the indented object. -/
def kClose : Str := "\n\x7d".data

/-- `json.dumps(info._asdict(), sort_keys=True, indent=4)`: the keys in
sorted order with their serialized values. -/
def infoPayload : TensorboardInfo → Str
  | ⟨v, st, pid, port, pp, logdir, db, ck⟩ =>
    kOpen ++ jstr ck ++ kDb ++ jstr db ++ kLogdir ++ jstr logdir ++
    kPathPre ++ jstr pp ++ kPid ++ intChars pid ++ kPort ++ intChars port ++
    kStart ++ intChars st ++ kVersion ++ jstr v ++ kClose

/-- The info file contents: `"%s\n" % payload` as written by
`write_info_file`. -/
def infoFileContents (info : TensorboardInfo) : Str :=
  infoPayload info ++ ['\n']

/-! ### Decoding (`json.loads` followed by `TensorboardInfo(**...)`)

The decoder below models `json.loads` composed with
`TensorboardInfo(**json.loads(contents))` on the canonical encoding
this codec emits: it accepts exactly the key-sorted, indent-4 object
shape produced by `infoPayload` (modulo trailing whitespace), decoding
JSON string escapes and integers, and rejects everything else.  A file
accepted by it is well-formed; any other contents make
`TensorboardInfo(**json.loads(...))` the subject of the
`except Exception` handler in `get_all`. -/

/-- Value of one hexadecimal digit character. -/
def hexVal (c : Char) : Option Nat :=
  if '0' ≤ c ∧ c ≤ '9' then some (c.toNat - 48)
  else if 'a' ≤ c ∧ c ≤ 'f' then some (c.toNat - 87)
  else if 'A' ≤ c ∧ c ≤ 'F' then some (c.toNat - 55)
  else none

/-- Value of a four-digit hexadecimal code unit. -/
def hex4 (h1 h2 h3 h4 : Char) : Option Nat := do
  let a ← hexVal h1
  let b ← hexVal h2
  let c ← hexVal h3
  let d ← hexVal h4
  some (4096 * a + 256 * b + 16 * c + d)

/-- The single-character JSON escapes. -/
def unescapeChar (e : Char) : Option Char :=
  if e = '"' then some '"'
  else if e = '\\' then some '\\'
  else if e = '/' then some '/'
  else if e = 'b' then some '\x08'
  else if e = 'f' then some '\x0c'
  else if e = 'n' then some '\n'
  else if e = 'r' then some '\x0d'
  else if e = 't' then some '\t'
  else none

mutual

/-- Decode a JSON string body (the part after the opening quote) up to
and including the closing quote; return the decoded characters and the
remaining input.  Fuel-bounded (one unit per step) so that the kernel
can evaluate it; `parseQStr` supplies ample fuel. -/
def parseStringBody : Nat → Str → Option (List Char × Str)
  | 0, _ => none
  | _ + 1, [] => none
  | fuel + 1, c :: rest =>
    if c = '"' then some ([], rest)
    else if c = '\\' then parseEscapeSeq fuel rest
    else (parseStringBody fuel rest).map (fun p => (c :: p.1, p.2))

/-- Decode the remainder of an escape sequence (after the backslash). -/
def parseEscapeSeq : Nat → Str → Option (List Char × Str)
  | 0, _ => none
  | _ + 1, [] => none
  | fuel + 1, e :: r =>
    if e = 'u' then parseUEsc fuel r
    else
      match unescapeChar e with
      | some d => (parseStringBody fuel r).map (fun p => (d :: p.1, p.2))
      | none => none

/-- Decode the remainder of a `\u` escape (the four hex digits and, for
a high surrogate, the paired low surrogate escape). -/
def parseUEsc : Nat → Str → Option (List Char × Str)
  | 0, _ => none
  | fuel + 1, h1 :: h2 :: h3 :: h4 :: r2 =>
    match hex4 h1 h2 h3 h4 with
    | none => none
    | some m =>
      if 0xD800 ≤ m ∧ m ≤ 0xDBFF then parseLowSurrogate fuel m r2
      else if 0xDC00 ≤ m ∧ m ≤ 0xDFFF then none
      else (parseStringBody fuel r2).map (fun p => (Char.ofNat m :: p.1, p.2))
  | _ + 1, _ => none

/-- Decode the low half of a surrogate pair whose high half had code
unit `m`. -/
def parseLowSurrogate : Nat → Nat → Str → Option (List Char × Str)
  | 0, _, _ => none
  | fuel + 1, m, '\\' :: 'u' :: g1 :: g2 :: g3 :: g4 :: r3 =>
    match hex4 g1 g2 g3 g4 with
    | none => none
    | some m2 =>
      if 0xDC00 ≤ m2 ∧ m2 ≤ 0xDFFF then
        (parseStringBody fuel r3).map
          (fun p => (Char.ofNat (0x10000 + (m - 0xD800) * 0x400 +
            (m2 - 0xDC00)) :: p.1, p.2))
      else none
  | _ + 1, _, _ => none

end

/-- Decode a quoted JSON string; return the string and remaining input. -/
def parseQStr : Str → Option (String × Str)
  | '"' :: rest =>
    (parseStringBody (rest.length + 1) rest).map (fun p => (String.mk p.1, p.2))
  | _ => none

/-- Consume leading decimal digits, accumulating their value. -/
def parseDigitsAux (acc : Nat) : Str → Nat × Str
  | [] => (acc, [])
  | c :: rest =>
    if c.isDigit then parseDigitsAux (acc * 10 + (c.toNat - 48)) rest
    else (acc, c :: rest)

/-- Decode a decimal natural number (at least one digit). -/
def parseNatNum : Str → Option (Nat × Str)
  | [] => none
  | c :: rest =>
    if c.isDigit then some (parseDigitsAux 0 (c :: rest)) else none

/-- Decode a JSON integer. -/
def parseIntNum : Str → Option (Int × Str)
  | [] => none
  | c :: rest =>
    if c = '-' then (parseNatNum rest).map (fun p => (-(p.1 : Int), p.2))
    else (parseNatNum (c :: rest)).map (fun p => ((p.1 : Int), p.2))

/-- Match a literal prefix, returning the remaining input. -/
def parseLit : Str → Str → Option Str
  | [], s => some s
  | _ :: _, [] => none
  | c :: cs, d :: ds => if c = d then parseLit cs ds else none

/-- JSON insignificant whitespace. -/
def isJsonWs (c : Char) : Bool :=
  c = ' ' || c = '\t' || c = '\n' || c = '\x0d'

/-- Decode an info file: `TensorboardInfo(**json.loads(contents))` on
the canonical key-sorted indent-4 encoding written by
`write_info_file` (see the section comment above). -/
def parseInfoFile (s : Str) : Option TensorboardInfo :=
  match parseLit kOpen s with
  | none => none
  | some s =>
  match parseQStr s with
  | none => none
  | some (ck, s) =>
  match parseLit kDb s with
  | none => none
  | some s =>
  match parseQStr s with
  | none => none
  | some (db, s) =>
  match parseLit kLogdir s with
  | none => none
  | some s =>
  match parseQStr s with
  | none => none
  | some (logdir, s) =>
  match parseLit kPathPre s with
  | none => none
  | some s =>
  match parseQStr s with
  | none => none
  | some (pp, s) =>
  match parseLit kPid s with
  | none => none
  | some s =>
  match parseIntNum s with
  | none => none
  | some (pid, s) =>
  match parseLit kPort s with
  | none => none
  | some s =>
  match parseIntNum s with
  | none => none
  | some (port, s) =>
  match parseLit kStart s with
  | none => none
  | some s =>
  match parseIntNum s with
  | none => none
  | some (st, s) =>
  match parseLit kVersion s with
  | none => none
  | some s =>
  match parseQStr s with
  | none => none
  | some (v, s) =>
  match parseLit kClose s with
  | none => none
  | some s =>
  if s.all isJsonWs then some ⟨v, st, pid, port, pp, logdir, db, ck⟩ else none

/-! ### The filesystem model -/

/-- A filesystem state: the set of existing directories and a map from
file paths to contents, both as association lists. -/
structure FS where
  dirs : List Str
  files : List (Str × Str)
deriving DecidableEq

/-- `os.path.join` for the cases this module exercises: a second
component that is absolute replaces the first. -/
def joinPath (a b : Str) : Str :=
  if b.head? = some '/' then b else a ++ '/' :: b

/-- `os.path.exists`: true for an existing directory or file. -/
def osPathExists (fs : FS) (p : Str) : Bool :=
  fs.dirs.contains p || fs.files.any (fun e => e.1 == p)

/-- `os.mkdir`: raises `FileExistsError` if the path already exists. -/
def osMkdir (fs : FS) (p : Str) : Except PyErr FS :=
  if osPathExists fs p then .error (.osError EEXIST)
  else .ok { fs with dirs := p :: fs.dirs }

/-- Contents of the file at a path, if present. -/
def lookupFile (fs : FS) (p : Str) : Option Str :=
  (fs.files.find? (fun e => e.1 == p)).map (fun e => e.2)

/-- Create or truncate-and-overwrite the file at a path
(`open(path, "w")` followed by a full write). -/
def setFile (fs : FS) (p cts : Str) : FS :=
  { fs with files := (p, cts) :: fs.files.filter (fun e => e.1 != p) }

/-- The name of an immediate child file of `dir`, if `p` is one. -/
def childName (dir p : Str) : Option Str :=
  if (dir ++ ['/']).isPrefixOf p then
    if p.drop (dir ++ ['/']).length ≠ [] ∧
        ¬ (p.drop (dir ++ ['/']).length).contains '/' then
      some (p.drop (dir ++ ['/']).length)
    else none
  else none

/-- `os.listdir`: the names of the files directly inside a directory. -/
def listdir (fs : FS) (dir : Str) : List Str :=
  fs.files.filterMap (fun e => childName dir e.1)

/-- `tempfile.gettempdir()`, modelled as the conventional `/tmp`. -/
def tempDirPath : Str := "/tmp".data

/-- The well-known registry directory,
`os.path.join(tempfile.gettempdir(), ".tensorboard-info")`. -/
def infoDirPath : Str := joinPath tempDirPath ".tensorboard-info".data

/-- `_get_info_dir` with an explicit interference point: `env` is the
action of the environment (for example another process creating the
same directory) scheduled between the `os.path.exists` check and the
`os.mkdir` call.  The sequential semantics is `env = id`. -/
def getInfoDirSched (env : FS → FS) (fs : FS) : Except PyErr (Str × FS) :=
  let path := infoDirPath
  let ex := osPathExists fs path
  let fs1 := env fs
  if ex then .ok (path, fs1)
  else
    match osMkdir fs1 path with
    | .ok fs2 => .ok (path, fs2)
    | .error e => .error e

/-- `_get_info_dir` run without concurrent interference. -/
def getInfoDir : FS → Except PyErr (Str × FS) :=
  getInfoDirSched id

/-- The file name `"pid-%d.info" % pid`. -/
def pidName (pid : Nat) : Str :=
  "pid-".data ++ natChars pid ++ ".info".data

/-- `_info_file_path` for a given `os.getpid()` value. -/
def infoFilePath (pid : Nat) : Str :=
  joinPath infoDirPath (pidName pid)

/-- `write_info_file`: serialize the descriptor and store it in the
current process's info file, creating the registry directory first. -/
def writeInfoFile (pid : Nat) (info : TensorboardInfo) (fs : FS) :
    Except PyErr FS :=
  match getInfoDir fs with
  | .error e => .error e
  | .ok (_, fs1) => .ok (setFile fs1 (infoFilePath pid) (infoFileContents info))

/-- `remove_info_file`: unlink the current process's info file,
swallowing `ENOENT`. -/
def removeInfoFile (pid : Nat) (fs : FS) : Except PyErr FS :=
  match getInfoDir fs with
  | .error e => .error e
  | .ok (_, fs1) =>
    match lookupFile fs1 (infoFilePath pid) with
    | none => .ok fs1
    | some _ =>
      .ok { fs1 with files := fs1.files.filter (fun e => e.1 != infoFilePath pid) }

/-- The loop body of `get_all` over a directory-listing snapshot: open
each listed file (a missing file raises `FileNotFoundError`), parse its
contents, collect the descriptors of the files that parse and the
file paths of the files that do not (the logged warnings). -/
def getAllFromListing (fs : FS) : List Str → Except PyErr (List TensorboardInfo × List Str)
  | [] => .ok ([], [])
  | name :: rest =>
    let filepath := joinPath infoDirPath name
    match lookupFile fs (joinPath infoDirPath filepath) with
    | none => .error (.osError ENOENT)
    | some contents =>
      match getAllFromListing fs rest with
      | .error e => .error e
      | .ok (infos, warns) =>
        match parseInfoFile contents with
        | some info => .ok (info :: infos, warns)
        | none => .ok (infos, filepath :: warns)

/-- `get_all`: create-if-absent the registry directory, list it, and
read every descriptor, skipping (with a warning) entries that fail to
parse. -/
def getAll (fs : FS) : Except PyErr (List TensorboardInfo × List Str × FS) :=
  match getInfoDir fs with
  | .error e => .error e
  | .ok (dir, fs1) =>
    match getAllFromListing fs1 (listdir fs1 dir) with
    | .error e => .error e
    | .ok (infos, warns) => .ok (infos, warns, fs1)

/-- The (name, contents) pairs of the files inside the registry
directory. -/
def registryFiles (fs : FS) : List (Str × Str) :=
  fs.files.filterMap
    (fun e => (childName infoDirPath e.1).map (fun n => (n, e.2)))

/-- The descriptors of the registry files that parse. -/
def regInfos (fs : FS) : List TensorboardInfo :=
  (registryFiles fs).filterMap (fun pr => parseInfoFile pr.2)

/-- The file paths of the registry files that fail to parse (the
warnings `get_all` logs). -/
def regWarns (fs : FS) : List Str :=
  (registryFiles fs).filterMap
    (fun pr => if (parseInfoFile pr.2).isSome then none
      else some (joinPath infoDirPath pr.1))

/-- Well-formedness of a filesystem state: file paths are unique, a
file inside the registry directory implies the directory itself
exists, and the registry directory path is not itself a file. -/
structure FS.wf (fs : FS) : Prop where
  nodup : (fs.files.map Prod.fst).Nodup
  dirExists : ∀ e ∈ fs.files, (childName infoDirPath e.1).isSome = true →
    infoDirPath ∈ fs.dirs
  dirNotFile : infoDirPath ∉ fs.files.map Prod.fst

/-- The selection step of `_find_matching_instance`: filter the
descriptors by cache key, stable-sort by port (Python's `sorted` is a
stable sort; it is modelled by the stable insertion sort), and return
the first element (or none). -/
def selectMatch (key : String) (infos : List TensorboardInfo) :
    Option TensorboardInfo :=
  ((infos.filter (fun i => i.cache_key == key)).insertionSort
    (fun a b => a.port ≤ b.port)).head?

/-- The port order used for the stable sort is total. -/
instance instPortLeTotal :
    IsTotal TensorboardInfo (fun a b => a.port ≤ b.port) :=
  ⟨fun a b => Int.le_total a.port b.port⟩

/-- The port order used for the stable sort is transitive. -/
instance instPortLeTrans :
    IsTrans TensorboardInfo (fun a b => a.port ≤ b.port) :=
  ⟨fun _ _ _ hab hbc => le_trans hab hbc⟩

/-- `_find_matching_instance`: read all descriptors, then select. -/
def findMatchingInstance (key : String) (fs : FS) :
    Except PyErr (Option TensorboardInfo × FS) :=
  match getAll fs with
  | .error e => .error e
  | .ok (infos, _, fs1) => .ok (selectMatch key infos, fs1)

/-! ### The launch coordinator -/

/-- The four terminal states of `start`. -/
inductive StartResult where
  | reused (info : TensorboardInfo)
  | launched (info : TensorboardInfo)
  | failed (exit_code : Int) (stdout stderr : String)
  | timedOut (pid : Int)
deriving DecidableEq

/-- The externally observable side effects of `start` beyond its
return value: temp-file creation and process spawning. -/
inductive SideEffect where
  | mkstemp (pre : String)
  | spawned (argv : List String)
deriving DecidableEq

/-- One iteration of the poll loop, as observed by the coordinator:
the result of `p.poll()` and the filesystem snapshot (reflecting
concurrent writers) that this iteration's `get_all` reads. -/
structure PollObs where
  pollResult : Option Int
  fsAtTick : FS

/-- The environment of one `start` call: everything the coordinator
observes that is outside its control (working directory, the pid the
OS assigns to the child, the recorded spawn time, temp-file paths and
the contents the child writes to them, and the poll-loop schedule). -/
structure StartEnv where
  cwd : String
  childPid : Int
  startTime : Int
  stdoutPath : Str
  stderrPath : Str
  stdoutContent : String
  stderrContent : String
  sched : List PollObs

/-- The argv list passed to `subprocess.Popen` (elements of the
sequence, strings extracted). -/
def pyArgStrings : PyVal → List String
  | .list xs => xs.map (fun x => match x with | .str s => s | _ => "")
  | .tuple xs => xs.map (fun x => match x with | .str s => s | _ => "")
  | .str _ => []

/-- The registry-scan guard of the poll loop (line 225):
`info.pid == p.pid and info.start_time >= start_time`. -/
def launchGuard (childPid startTime : Int) (i : TensorboardInfo) : Bool :=
  i.pid == childPid && decide (startTime ≤ i.start_time)

/-- The poll loop of `start` (lines 211-228): each iteration first
checks whether the child exited (terminal `Failed` with the captured
streams), then re-scans the registry for a descriptor matching the
child's pid with a start time at or after the recorded spawn time
(terminal `Launched`); an exhausted schedule is the deadline
(terminal `TimedOut`). -/
def pollLoop (childPid : Int) (startTime : Int) (stdoutC stderrC : String) :
    List PollObs → Except PyErr StartResult
  | [] => .ok (.timedOut childPid)
  | obs :: rest =>
    match obs.pollResult with
    | some code => .ok (.failed code stdoutC stderrC)
    | none =>
      match getAll obs.fsAtTick with
      | .error e => .error e
      | .ok (infos, _, _) =>
        match infos.find? (launchGuard childPid startTime) with
        | some info => .ok (.launched info)
        | none => pollLoop childPid startTime stdoutC stderrC rest

/-- `start`: probe for a reusable instance; otherwise create the two
output temp files, spawn the child, and poll.  Returns the terminal
state together with the final coordinator-visible filesystem and the
list of externally observable side effects. -/
def start (arguments : PyVal) (env : StartEnv) (fs : FS) :
    Except PyErr (StartResult × FS × List SideEffect) :=
  match cacheKey env.cwd arguments with
  | .error e => .error e
  | .ok key =>
    match getAll fs with
    | .error e => .error e
    | .ok (infos, _, fs1) =>
      match selectMatch key infos with
      | some m => .ok (.reused m, fs1, [])
      | none =>
        match pollLoop env.childPid env.startTime env.stdoutContent
            env.stderrContent env.sched with
        | .error e => .error e
        | .ok r =>
          .ok (r, setFile (setFile fs1 env.stdoutPath []) env.stderrPath [],
            [.mkstemp "tensorboard-stdout-", .mkstemp "tensorboard-stderr-",
             .spawned ("tensorboard" :: pyArgStrings arguments)])

/-! ### Proof-device decoders

The definitions below are not part of the program: they are left
inverses used to prove round-trip and injectivity properties of the
encoders above. -/

/-- Whether the input begins with a decimal digit. -/
def headDigit : Str → Bool
  | [] => false
  | c :: _ => c.isDigit

/-- Index of a character in the base64 alphabet. -/
def b64val (c : Char) : Nat := b64table.indexOf c

/-- Base64 decoding, a left inverse of `b64encodeBytes`. -/
def b64dec : List Char → Option (List Nat)
  | [] => some []
  | c0 :: c1 :: c2 :: c3 :: rest =>
    if c2 = '=' ∧ c3 = '=' ∧ rest = [] then
      some [4 * b64val c0 + b64val c1 / 16]
    else if c3 = '=' ∧ rest = [] then
      some [4 * b64val c0 + b64val c1 / 16, b64val c1 % 16 * 16 + b64val c2 / 4]
    else
      (b64dec rest).map
        (fun bs => (4 * b64val c0 + b64val c1 / 16) ::
          (b64val c1 % 16 * 16 + b64val c2 / 4) ::
          (b64val c2 % 4 * 64 + b64val c3) :: bs)
  | _ => none

/-- Decode a comma-separated nonempty sequence of JSON strings up to
the closing bracket; `fuel` bounds the number of elements. -/
def parseItems (fuel : Nat) (s : Str) : Option (List String × Str) :=
  match fuel with
  | 0 => none
  | fuel + 1 =>
    match parseQStr s with
    | none => none
    | some (x, s) =>
      match s with
      | ',' :: r => (parseItems fuel r).map (fun p => (x :: p.1, p.2))
      | ']' :: r => some ([x], r)
      | _ => none

/-- Decode a JSON array of strings. -/
def parseArr (fuel : Nat) : Str → Option (List String × Str)
  | '[' :: rest =>
    match rest with
    | ']' :: r => some ([], r)
    | _ => parseItems fuel rest
  | _ => none

/-- Decode a cache-key datum, a left inverse of `dumpsDatum` on
string-list arguments. -/
def parseDatum (fuel : Nat) (s : Str) : Option (String × List String) :=
  match parseLit litDatumOpen s with
  | none => none
  | some s =>
  match parseArr fuel s with
  | none => none
  | some (args, s) =>
  match parseLit litDatumMid s with
  | none => none
  | some s =>
  match parseQStr s with
  | none => none
  | some (wd, s) =>
  match parseLit ['\x7d'] s with
  | none => none
  | some s =>
  if s = [] then some (wd, args) else none

/-! ## Decoding is a left inverse of encoding -/

/-- Valid scalar values avoid the surrogate range. -/
theorem char_not_surrogate (c : Char) :
    c.toNat < 0xD800 ∨ (0xDFFF < c.toNat ∧ c.toNat < 0x110000) := by
  have h := c.valid
  unfold UInt32.isValidChar Nat.isValidChar at h
  simp only [Char.toNat]
  omega

/-- Hex digits decode to their value. -/
theorem hexVal_hexDigit : ∀ k < 16, hexVal (hexDigit k) = some k := by decide

/-- Hex digit characters are ASCII. -/
theorem hexDigit_ascii : ∀ k, (hexDigit k).toNat ≤ 0x7e := by
  intro k
  unfold hexDigit
  split <;> decide

/-- A `\uXXXX` payload decodes to its code unit. -/
theorem hex4_uEsc (m : Nat) (h : m < 0x10000) :
    hex4 (hexDigit (m / 4096 % 16)) (hexDigit (m / 256 % 16))
      (hexDigit (m / 16 % 16)) (hexDigit (m % 16)) = some m := by
  rw [hex4, hexVal_hexDigit _ (by omega), hexVal_hexDigit _ (by omega),
    hexVal_hexDigit _ (by omega), hexVal_hexDigit _ (by omega)]
  simp only [Option.bind_eq_bind, Option.some_bind, Option.some.injEq]
  omega

/-- The escape of one character has the expected length per branch. -/
theorem escapeList_cons (c : Char) (cs : List Char) :
    escapeList (c :: cs) = escapeChar c ++ escapeList cs := rfl

set_option maxHeartbeats 1000000 in
/-- Decoding a JSON string body is a left inverse of escaping, for any
fuel exceeding the escaped length. -/
theorem parseStringBody_escape_aux (c : Char) (cs : List Char) (fuel : Nat)
    (rest : Str) (hf : (escapeList (c :: cs)).length < fuel)
    (ihAll : ∀ f, (escapeList cs).length < f →
      parseStringBody f (escapeList cs ++ '"' :: rest) = some (cs, rest)) :
    parseStringBody fuel (escapeList (c :: cs) ++ '"' :: rest) =
      some (c :: cs, rest) := by
  have hv := char_not_surrogate c
  rw [escapeList_cons] at hf ⊢
  rw [List.length_append] at hf
  unfold escapeChar at hf ⊢
  split_ifs at hf ⊢ with h1 h2 h3 h4 h5 h6 h7 h8 h9
  · simp only [List.length_cons, List.length_nil] at hf
    obtain ⟨f, rfl⟩ : ∃ f, fuel = (f + 1) + 1 := ⟨fuel - 2, by omega⟩
    subst h1
    have ih := ihAll f (by omega)
    simp only [List.cons_append, List.nil_append]
    rw [parseStringBody]
    simp only [reduceIte]
    rw [parseEscapeSeq]
    simp only [reduceIte, unescapeChar]
    simp [ih]
  · simp only [List.length_cons, List.length_nil] at hf
    obtain ⟨f, rfl⟩ : ∃ f, fuel = (f + 1) + 1 := ⟨fuel - 2, by omega⟩
    subst h2
    have ih := ihAll f (by omega)
    simp only [List.cons_append, List.nil_append]
    rw [parseStringBody]
    simp only [reduceIte]
    rw [parseEscapeSeq]
    simp only [reduceIte, unescapeChar]
    simp [ih]
  · simp only [List.length_cons, List.length_nil] at hf
    obtain ⟨f, rfl⟩ : ∃ f, fuel = (f + 1) + 1 := ⟨fuel - 2, by omega⟩
    subst h3
    have ih := ihAll f (by omega)
    simp only [List.cons_append, List.nil_append]
    rw [parseStringBody]
    simp only [reduceIte]
    rw [parseEscapeSeq]
    simp only [reduceIte, unescapeChar]
    simp [ih]
  · simp only [List.length_cons, List.length_nil] at hf
    obtain ⟨f, rfl⟩ : ∃ f, fuel = (f + 1) + 1 := ⟨fuel - 2, by omega⟩
    subst h4
    have ih := ihAll f (by omega)
    simp only [List.cons_append, List.nil_append]
    rw [parseStringBody]
    simp only [reduceIte]
    rw [parseEscapeSeq]
    simp only [reduceIte, unescapeChar]
    simp [ih]
  · simp only [List.length_cons, List.length_nil] at hf
    obtain ⟨f, rfl⟩ : ∃ f, fuel = (f + 1) + 1 := ⟨fuel - 2, by omega⟩
    subst h5
    have ih := ihAll f (by omega)
    simp only [List.cons_append, List.nil_append]
    rw [parseStringBody]
    simp only [reduceIte]
    rw [parseEscapeSeq]
    simp only [reduceIte, unescapeChar]
    simp [ih]
  · simp only [List.length_cons, List.length_nil] at hf
    obtain ⟨f, rfl⟩ : ∃ f, fuel = (f + 1) + 1 := ⟨fuel - 2, by omega⟩
    subst h6
    have ih := ihAll f (by omega)
    simp only [List.cons_append, List.nil_append]
    rw [parseStringBody]
    simp only [reduceIte]
    rw [parseEscapeSeq]
    simp only [reduceIte, unescapeChar]
    simp [ih]
  · simp only [List.length_cons, List.length_nil] at hf
    obtain ⟨f, rfl⟩ : ∃ f, fuel = (f + 1) + 1 := ⟨fuel - 2, by omega⟩
    subst h7
    have ih := ihAll f (by omega)
    simp only [List.cons_append, List.nil_append]
    rw [parseStringBody]
    simp only [reduceIte]
    rw [parseEscapeSeq]
    simp only [reduceIte, unescapeChar]
    simp [ih]
  · simp only [List.length_cons, List.length_nil] at hf
    obtain ⟨f, rfl⟩ : ∃ f, fuel = f + 1 := ⟨fuel - 1, by omega⟩
    have ih := ihAll f (by omega)
    simp only [List.cons_append, List.nil_append, List.singleton_append]
    rw [parseStringBody, if_neg h1, if_neg h2]
    simp [ih]
  · rw [uEsc] at hf ⊢
    simp only [List.length_cons, List.length_nil] at hf
    obtain ⟨f, rfl⟩ : ∃ f, fuel = ((f + 1) + 1) + 1 := ⟨fuel - 3, by omega⟩
    have ih := ihAll f (by omega)
    simp only [List.cons_append, List.nil_append]
    rw [parseStringBody, if_neg (by decide), if_pos (by decide)]
    rw [parseEscapeSeq, if_pos (by decide)]
    rw [parseUEsc, hex4_uEsc c.toNat (by omega)]
    have hn1 : ¬(0xD800 ≤ c.toNat ∧ c.toNat ≤ 0xDBFF) := by omega
    have hn2 : ¬(0xDC00 ≤ c.toNat ∧ c.toNat ≤ 0xDFFF) := by omega
    simp only [if_neg hn1, if_neg hn2]
    simp [ih, Char.ofNat_toNat]
  · rw [uEsc, uEsc] at hf ⊢
    simp only [List.length_append, List.length_cons, List.length_nil] at hf
    obtain ⟨f, rfl⟩ : ∃ f, fuel = (((f + 1) + 1) + 1) + 1 := ⟨fuel - 4, by omega⟩
    have ih := ihAll f (by omega)
    simp only [List.cons_append, List.nil_append]
    rw [parseStringBody, if_neg (by decide), if_pos (by decide)]
    rw [parseEscapeSeq, if_pos (by decide)]
    rw [parseUEsc, hex4_uEsc (0xD800 + (c.toNat - 0x10000) / 0x400) (by omega)]
    have hp1 : 0xD800 ≤ 0xD800 + (c.toNat - 0x10000) / 0x400 ∧
        0xD800 + (c.toNat - 0x10000) / 0x400 ≤ 0xDBFF := by omega
    simp only [if_pos hp1]
    rw [parseLowSurrogate, hex4_uEsc (0xDC00 + (c.toNat - 0x10000) % 0x400) (by omega)]
    have hp2 : 0xDC00 ≤ 0xDC00 + (c.toNat - 0x10000) % 0x400 ∧
        0xDC00 + (c.toNat - 0x10000) % 0x400 ≤ 0xDFFF := by omega
    simp only [if_pos hp2]
    rw [show 0x10000 + (0xD800 + (c.toNat - 0x10000) / 0x400 - 0xD800) * 0x400 +
          (0xDC00 + (c.toNat - 0x10000) % 0x400 - 0xDC00) = c.toNat by omega]
    simp [ih, Char.ofNat_toNat]

/-- Decoding a JSON string body is a left inverse of escaping, for any
fuel exceeding the escaped length. -/
theorem parseStringBody_escape : ∀ (s : List Char) (fuel : Nat) (rest : Str),
    (escapeList s).length < fuel →
    parseStringBody fuel (escapeList s ++ '"' :: rest) = some (s, rest)
  | [], fuel, rest, hf => by
    obtain ⟨f, rfl⟩ : ∃ f, fuel = f + 1 := ⟨fuel - 1, by omega⟩
    simp [escapeList, parseStringBody]
  | c :: cs, fuel, rest, hf =>
    parseStringBody_escape_aux c cs fuel rest hf
      (fun f hf2 => parseStringBody_escape cs f rest hf2)

/-- Decoding a quoted JSON string is a left inverse of `jstr`. -/
theorem parseQStr_jstr (s : String) (rest : Str) :
    parseQStr (jstr s ++ rest) = some (s, rest) := by
  rw [jstr]
  simp only [List.cons_append, List.append_assoc, List.singleton_append]
  rw [parseQStr, parseStringBody_escape]
  · rfl
  · simp only [List.nil_append, List.length_append, List.length_cons]
    omega

/-- Decimal digit characters are digits with the expected value. -/
theorem digitChar_spec : ∀ k < 10,
    (digitChar k).isDigit = true ∧ (digitChar k).toNat - 48 = k ∧
    (digitChar k).toNat ≤ 0x7e ∧ digitChar k ≠ '/' ∧ digitChar k ≠ '-' := by
  decide

/-- The digit rendering does not depend on the fuel, once sufficient. -/
theorem natCharsAux_irrel : ∀ (fuel fuel' n : Nat), n < fuel → n < fuel' →
    natCharsAux fuel n = natCharsAux fuel' n
  | fuel + 1, fuel' + 1, n, hf, hf' => by
    rw [natCharsAux, natCharsAux]
    split
    · rfl
    · next h =>
      have hlt : n / 10 < n := Nat.div_lt_self (by omega) (by omega)
      rw [natCharsAux_irrel fuel fuel' (n / 10) (by omega) (by omega)]

/-- The defining recurrence of `natChars`. -/
theorem natChars_eq (n : Nat) : natChars n =
    if n < 10 then [digitChar n]
    else natChars (n / 10) ++ [digitChar (n % 10)] := by
  rw [natChars, natCharsAux]
  split
  · rfl
  · next h =>
    have hlt : n / 10 < n := Nat.div_lt_self (by omega) (by omega)
    rw [natCharsAux_irrel n (n / 10 + 1) (n / 10) (by omega) (by omega)]
    rfl

/-- `natChars` is never empty. -/
theorem natChars_ne_nil (n : Nat) : natChars n ≠ [] := by
  rw [natChars_eq]
  split
  · simp
  · simp [natChars_ne_nil (n / 10)]

/-- Every character of `natChars` is a decimal digit. -/
theorem natChars_digits (n : Nat) : ∀ c ∈ natChars n, c.isDigit = true := by
  rw [natChars_eq]
  split
  · intro c hc
    simp only [List.mem_singleton] at hc
    subst hc
    exact (digitChar_spec n (by omega)).1
  · intro c hc
    simp only [List.mem_append, List.mem_singleton] at hc
    rcases hc with hc | hc
    · exact natChars_digits (n / 10) c hc
    · subst hc
      exact (digitChar_spec (n % 10) (by omega)).1

/-- Accumulating digit decoding over the digits of `n`. -/
theorem parseDigitsAux_natChars (n : Nat) : ∀ (acc : Nat) (rest : Str),
    parseDigitsAux acc (natChars n ++ rest) =
      parseDigitsAux (acc * 10 ^ (natChars n).length + n) rest := by
  induction n using Nat.strong_induction_on with
  | _ n ih =>
    intro acc rest
    rw [natChars_eq]
    split
    · next h =>
      simp only [List.singleton_append, List.length_singleton]
      rw [parseDigitsAux]
      rw [if_pos (digitChar_spec n (by omega)).1]
      rw [(digitChar_spec n (by omega)).2.1]
      ring_nf
    · next h =>
      rw [List.append_assoc, List.singleton_append,
        List.length_append, List.length_singleton]
      rw [ih (n / 10) (Nat.div_lt_self (by omega) (by omega)) acc
        (digitChar (n % 10) :: rest)]
      rw [parseDigitsAux]
      rw [if_pos (digitChar_spec (n % 10) (by omega)).1]
      rw [(digitChar_spec (n % 10) (by omega)).2.1]
      congr 1
      rw [pow_succ]
      set P := 10 ^ (natChars (n / 10)).length
      have h10 : n / 10 * 10 + n % 10 = n := by omega
      ring_nf
      omega

/-- Digit decoding stops at a non-digit. -/
theorem parseDigitsAux_stop (acc : Nat) (rest : Str) (h : headDigit rest = false) :
    parseDigitsAux acc rest = (acc, rest) := by
  cases rest with
  | nil => rfl
  | cons c t =>
    rw [parseDigitsAux, if_neg]
    simp only [headDigit] at h
    simp [h]

/-- Natural-number decoding is a left inverse of `natChars`. -/
theorem parseNatNum_natChars (n : Nat) (rest : Str) (h : headDigit rest = false) :
    parseNatNum (natChars n ++ rest) = some (n, rest) := by
  obtain ⟨c, t, hnc⟩ : ∃ c t, natChars n = c :: t :=
    List.exists_cons_of_ne_nil (natChars_ne_nil n)
  have hcd : c.isDigit = true := natChars_digits n c (by rw [hnc]; simp)
  rw [hnc, List.cons_append, parseNatNum, if_pos hcd, ← List.cons_append, ← hnc]
  rw [parseDigitsAux_natChars, Nat.zero_mul, Nat.zero_add]
  rw [parseDigitsAux_stop n rest h]

/-- Integer decoding is a left inverse of `intChars`. -/
theorem parseIntNum_intChars (n : Int) (rest : Str) (h : headDigit rest = false) :
    parseIntNum (intChars n ++ rest) = some (n, rest) := by
  rw [intChars]
  split
  · next hneg =>
    rw [List.cons_append, parseIntNum, if_pos rfl]
    rw [parseNatNum_natChars n.natAbs rest h]
    simp only [Option.map_some']
    congr 2
    omega
  · next hpos =>
    obtain ⟨c, t, hnc⟩ : ∃ c t, natChars n.toNat = c :: t :=
      List.exists_cons_of_ne_nil (natChars_ne_nil n.toNat)
    have hcd : c.isDigit = true := natChars_digits n.toNat c (by rw [hnc]; simp)
    have hcm : c ≠ '-' := by
      intro hc
      rw [hc] at hcd
      simp [Char.isDigit] at hcd
    rw [hnc, List.cons_append, parseIntNum, if_neg hcm, ← List.cons_append, ← hnc]
    rw [parseNatNum_natChars n.toNat rest h]
    simp only [Option.map_some']
    congr 2
    omega

/-- Matching a literal prefix succeeds exactly on that prefix. -/
theorem parseLit_append : ∀ (l rest : Str), parseLit l (l ++ rest) = some rest
  | [], rest => rfl
  | c :: cs, rest => by
    rw [List.cons_append, parseLit, if_pos rfl]
    exact parseLit_append cs rest

/-- Matching a literal against exactly itself leaves nothing. -/
theorem parseLit_self (l : Str) : parseLit l l = some [] := by
  have := parseLit_append l []
  rwa [List.append_nil] at this

/-- The literal after the `pid` value does not begin with a digit. -/
theorem headDigit_kPort (X : Str) : headDigit (kPort ++ X) = false := rfl

/-- The literal after the `port` value does not begin with a digit. -/
theorem headDigit_kStart (X : Str) : headDigit (kStart ++ X) = false := rfl

/-- The literal after the `start_time` value does not begin with a digit. -/
theorem headDigit_kVersion (X : Str) : headDigit (kVersion ++ X) = false := rfl


/-- Decoding an info file written by `write_info_file` recovers the
descriptor field for field. -/
theorem parseInfoFile_roundtrip (info : TensorboardInfo) :
    parseInfoFile (infoFileContents info) = some info := by
  obtain ⟨v, st, pid, port, pp, logdir, db, ck⟩ := info
  rw [infoFileContents, infoPayload]
  simp only [List.append_assoc]
  simp only [parseInfoFile, parseLit_append, parseQStr_jstr,
    parseIntNum_intChars _ _ (headDigit_kPort _),
    parseIntNum_intChars _ _ (headDigit_kStart _),
    parseIntNum_intChars _ _ (headDigit_kVersion _)]
  simp [isJsonWs]

/-! ## Base64 decoding is a left inverse of encoding -/

/-- Alphabet characters decode to their index. -/
theorem b64val_b64char : ∀ n < 64, b64val (b64char n) = n := by decide

/-- Alphabet characters are never the padding character. -/
theorem b64char_ne_pad (n : Nat) : b64char n ≠ '=' := by
  by_cases h : n < 64
  · exact (show ∀ m < 64, b64char m ≠ '=' by decide) n h
  · rw [b64char, List.getD_eq_default]
    · decide
    · have : b64table.length = 64 := by decide
      omega

/-- `b64dec` inverts `b64encodeBytes` on byte sequences. -/
theorem b64dec_encode : ∀ (l : List Nat), (∀ b ∈ l, b < 256) →
    b64dec (b64encodeBytes l) = some l
  | [], _ => rfl
  | [b0], h => by
    have hb0 : b0 < 256 := h b0 (by simp)
    rw [b64encodeBytes, b64dec, if_pos ⟨rfl, rfl, rfl⟩]
    rw [b64val_b64char _ (by omega), b64val_b64char _ (by omega)]
    simp only [Option.some.injEq, List.cons.injEq, and_true]
    omega
  | [b0, b1], h => by
    have hb0 : b0 < 256 := h b0 (by simp)
    have hb1 : b1 < 256 := h b1 (by simp)
    rw [b64encodeBytes, b64dec]
    rw [if_neg (by intro hc; exact b64char_ne_pad _ hc.1)]
    rw [if_pos ⟨rfl, rfl⟩]
    rw [b64val_b64char _ (by omega), b64val_b64char _ (by omega),
      b64val_b64char _ (by omega)]
    simp only [Option.some.injEq, List.cons.injEq, and_true]
    constructor <;> omega
  | b0 :: b1 :: b2 :: b3 :: l, h => by
    have hb0 : b0 < 256 := h b0 (by simp)
    have hb1 : b1 < 256 := h b1 (by simp)
    have hb2 : b2 < 256 := h b2 (by simp)
    have ih := b64dec_encode (b3 :: l) (fun b hb =>
      h b (List.mem_cons_of_mem _ (List.mem_cons_of_mem _
        (List.mem_cons_of_mem _ hb))))
    rw [show b64encodeBytes (b0 :: b1 :: b2 :: b3 :: l) =
      b64char (b0 / 4) :: b64char (b0 % 4 * 16 + b1 / 16) ::
      b64char (b1 % 16 * 4 + b2 / 64) :: b64char (b2 % 64) ::
      b64encodeBytes (b3 :: l) from rfl]
    rw [b64dec]
    rw [if_neg (by intro hc; exact b64char_ne_pad _ hc.1)]
    rw [if_neg (by intro hc; exact b64char_ne_pad _ hc.1)]
    rw [ih]
    rw [b64val_b64char _ (by omega), b64val_b64char _ (by omega),
      b64val_b64char _ (by omega), b64val_b64char _ (by omega)]
    simp only [Option.map_some', Option.some.injEq, List.cons.injEq, and_true]
    refine ⟨by omega, by omega, by omega⟩
  | [b0, b1, b2], h => by
    have hb0 : b0 < 256 := h b0 (by simp)
    have hb1 : b1 < 256 := h b1 (by simp)
    have hb2 : b2 < 256 := h b2 (by simp)
    rw [show b64encodeBytes [b0, b1, b2] =
      b64char (b0 / 4) :: b64char (b0 % 4 * 16 + b1 / 16) ::
      b64char (b1 % 16 * 4 + b2 / 64) :: b64char (b2 % 64) ::
      b64encodeBytes [] from rfl]
    rw [b64dec]
    rw [if_neg (by intro hc; exact b64char_ne_pad _ hc.1)]
    rw [if_neg (by intro hc; exact b64char_ne_pad _ hc.1)]
    rw [show b64dec (b64encodeBytes []) = some [] from rfl]
    rw [b64val_b64char _ (by omega), b64val_b64char _ (by omega),
      b64val_b64char _ (by omega), b64val_b64char _ (by omega)]
    simp only [Option.map_some', Option.some.injEq, List.cons.injEq, and_true]
    refine ⟨by omega, by omega, by omega⟩

/-- Base64 encoding is injective on byte sequences. -/
theorem b64encodeBytes_inj (l l' : List Nat)
    (h : ∀ b ∈ l, b < 256) (h' : ∀ b ∈ l', b < 256)
    (he : b64encodeBytes l = b64encodeBytes l') : l = l' := by
  have := b64dec_encode l h
  rw [he, b64dec_encode l' h'] at this
  exact (Option.some.injEq _ _ ▸ this).symm

/-! ## The cache-key datum serialization is ASCII and injective -/

/-- `\uXXXX` escapes are ASCII. -/
theorem uEsc_ascii (m : Nat) : ∀ x ∈ uEsc m, x.toNat ≤ 0x7e := by
  intro x hx
  rw [uEsc] at hx
  simp only [List.mem_cons, List.not_mem_nil, or_false] at hx
  rcases hx with h | h | h | h | h | h <;> subst h
  · decide
  · decide
  all_goals exact hexDigit_ascii _

/-- Escaped characters are ASCII. -/
theorem escapeChar_ascii (c : Char) : ∀ x ∈ escapeChar c, x.toNat ≤ 0x7e := by
  intro x hx
  rw [escapeChar] at hx
  split_ifs at hx with h1 h2 h3 h4 h5 h6 h7 h8 h9
  case _ | _ | _ | _ | _ | _ | _ =>
    simp only [List.mem_cons, List.not_mem_nil, or_false] at hx
    rcases hx with h | h <;> (subst h; decide)
  · simp only [List.mem_singleton] at hx
    subst hx
    omega
  · exact uEsc_ascii _ x hx
  · rcases List.mem_append.mp hx with h | h
    · exact uEsc_ascii _ x h
    · exact uEsc_ascii _ x h

/-- Escaped string bodies are ASCII. -/
theorem escapeList_ascii : ∀ (s : List Char), ∀ x ∈ escapeList s, x.toNat ≤ 0x7e
  | [], x, hx => by simp [escapeList] at hx
  | c :: cs, x, hx => by
    rw [escapeList] at hx
    rcases List.mem_append.mp hx with h | h
    · exact escapeChar_ascii c x h
    · exact escapeList_ascii cs x h

/-- Serialized JSON strings are ASCII. -/
theorem jstr_ascii (s : String) : ∀ x ∈ jstr s, x.toNat ≤ 0x7e := by
  intro x hx
  rw [jstr] at hx
  rcases List.mem_cons.mp hx with h | h
  · subst h; decide
  · rcases List.mem_append.mp h with h' | h'
    · exact escapeList_ascii _ x h'
    · simp only [List.mem_singleton] at h'
      subst h'; decide

/-- Comma-separated serialized string arrays are ASCII. -/
theorem dumpsItems_strs_ascii : ∀ (args : List String),
    ∀ x ∈ dumpsItems (args.map PyVal.str), x.toNat ≤ 0x7e
  | [], x, hx => by simp [dumpsItems] at hx
  | [a], x, hx => by
    simp only [List.map_cons, List.map_nil] at hx
    rw [dumpsItems, dumpsVal] at hx
    exact jstr_ascii a x hx
  | a :: b :: t, x, hx => by
    simp only [List.map_cons] at hx
    rw [dumpsItems, dumpsVal] at hx
    rcases List.mem_append.mp hx with h | h
    · exact jstr_ascii a x h
    · rcases List.mem_cons.mp h with h' | h'
      · subst h'; decide
      · have := dumpsItems_strs_ascii (b :: t) x (by simpa using h')
        exact this

/-- The serialized cache-key datum is ASCII for string-list arguments. -/
theorem dumpsDatum_strs_ascii (wd : String) (args : List String) :
    ∀ x ∈ dumpsDatum wd (.list (args.map PyVal.str)), x.toNat ≤ 0x7e := by
  intro x hx
  rw [dumpsDatum] at hx
  simp only [List.mem_append, List.mem_singleton] at hx
  rcases hx with ((((h | h) | h) | h) | h)
  · revert h
    have : ∀ y ∈ litDatumOpen, y.toNat ≤ 0x7e := by decide
    exact this x
  · rw [dumpsVal] at h
    rcases List.mem_cons.mp h with h' | h'
    · subst h'; decide
    · rcases List.mem_append.mp h' with h'' | h''
      · exact dumpsItems_strs_ascii args x h''
      · simp only [List.mem_singleton] at h''
        subst h''; decide
  · revert h
    have : ∀ y ∈ litDatumMid, y.toNat ≤ 0x7e := by decide
    exact this x
  · exact jstr_ascii wd x h
  · subst h; decide

/-- Decoding a nonempty serialized string array recovers the strings. -/
theorem parseItems_dumps : ∀ (args : List String) (a : String) (fuel : Nat)
    (rest : Str), args.length < fuel →
    parseItems fuel (dumpsItems ((a :: args).map PyVal.str) ++ ']' :: rest) =
      some (a :: args, rest)
  | [], a, fuel, rest, hf => by
    obtain ⟨f, rfl⟩ : ∃ f, fuel = f + 1 := ⟨fuel - 1, by omega⟩
    simp only [List.map_cons, List.map_nil]
    rw [dumpsItems, dumpsVal]
    rw [parseItems, parseQStr_jstr]
    rfl
  | a' :: args, a, fuel, rest, hf => by
    obtain ⟨f, rfl⟩ : ∃ f, fuel = f + 1 := ⟨fuel - 1, by omega⟩
    simp only [List.map_cons]
    rw [dumpsItems, dumpsVal]
    simp only [List.append_assoc, List.cons_append]
    rw [parseItems, parseQStr_jstr]
    have ih := parseItems_dumps args a' f rest (by simpa using hf)
    simp only [List.map_cons] at ih
    simp only [ih, Option.map_some']

/-- Decoding a serialized string array recovers the strings. -/
theorem parseArr_dumps (args : List String) (fuel : Nat)
    (hf : args.length ≤ fuel) (rest : Str) :
    parseArr fuel (dumpsVal (.list (args.map PyVal.str)) ++ rest) =
      some (args, rest) := by
  cases args with
  | nil => simp [dumpsVal, dumpsItems, parseArr]
  | cons a args =>
    simp only [List.map_cons]
    rw [dumpsVal]
    have hshape : ∃ t, dumpsItems (PyVal.str a :: args.map PyVal.str) ++ ']' :: rest =
        '"' :: t := by
      cases args with
      | nil =>
        simp only [List.map_nil]
        rw [dumpsItems, dumpsVal, jstr]
        exact ⟨_, rfl⟩
      | cons b t =>
        simp only [List.map_cons]
        rw [dumpsItems, dumpsVal, jstr]
        exact ⟨_, rfl⟩
    obtain ⟨t, ht⟩ := hshape
    simp only [List.cons_append, List.append_assoc, List.singleton_append,
      List.nil_append]
    rw [ht, parseArr, ← ht]
    · have := parseItems_dumps args a fuel rest (by simpa using hf)
      simpa using this
    · intro r hr
      injection hr with h1 _
      exact absurd h1 (by decide)

/-- Decoding a serialized datum recovers the working directory and the
argument strings. -/
theorem parseDatum_dumps (wd : String) (args : List String) (fuel : Nat)
    (hf : args.length ≤ fuel) :
    parseDatum fuel (dumpsDatum wd (.list (args.map PyVal.str))) =
      some (wd, args) := by
  rw [dumpsDatum]
  simp only [List.append_assoc]
  simp only [parseDatum, parseLit_append, parseArr_dumps args fuel hf,
    parseQStr_jstr, parseLit_self]
  rfl

/-- The serialized datum determines the working directory and argument
strings. -/
theorem dumpsDatum_inj_strs (wd wd' : String) (args args' : List String)
    (h : dumpsDatum wd (.list (args.map PyVal.str)) =
      dumpsDatum wd' (.list (args'.map PyVal.str))) :
    wd = wd' ∧ args = args' := by
  have h1 := parseDatum_dumps wd args (max args.length args'.length)
    (le_max_left _ _)
  have h2 := parseDatum_dumps wd' args' (max args.length args'.length)
    (le_max_right _ _)
  rw [h, h2] at h1
  simp only [Option.some.injEq, Prod.mk.injEq] at h1
  exact ⟨h1.1.symm, h1.2.symm⟩

/-- `Char.toNat` is injective. -/
theorem charToNat_inj : Function.Injective Char.toNat := by
  intro a b h
  have := congrArg Char.ofNat h
  rwa [Char.ofNat_toNat, Char.ofNat_toNat] at this

/-- The cache key determines the working directory and the argument
strings: `cache_key` is injective on (directory, string-list) pairs. -/
theorem cacheKey_inj_strs (wd wd' : String) (args args' : List String)
    (h : cacheKey wd (.list (args.map PyVal.str)) =
      cacheKey wd' (.list (args'.map PyVal.str))) :
    wd = wd' ∧ args = args' := by
  rw [cacheKey, cacheKey] at h
  simp only [Except.ok.injEq] at h
  have hb : b64encodeBytes ((dumpsDatum wd (.list (args.map PyVal.str))).map Char.toNat) =
      b64encodeBytes ((dumpsDatum wd' (.list (args'.map PyVal.str))).map Char.toNat) :=
    congrArg String.data h
  have hbytes : (dumpsDatum wd (.list (args.map PyVal.str))).map Char.toNat =
      (dumpsDatum wd' (.list (args'.map PyVal.str))).map Char.toNat := by
    refine b64encodeBytes_inj _ _ ?_ ?_ hb
    · intro b hbm
      obtain ⟨c, hc, rfl⟩ := List.mem_map.mp hbm
      have := dumpsDatum_strs_ascii wd args c hc
      omega
    · intro b hbm
      obtain ⟨c, hc, rfl⟩ := List.mem_map.mp hbm
      have := dumpsDatum_strs_ascii wd' args' c hc
      omega
  have hd : dumpsDatum wd (.list (args.map PyVal.str)) =
      dumpsDatum wd' (.list (args'.map PyVal.str)) :=
    List.map_injective_iff.mpr charToNat_inj hbytes
  exact dumpsDatum_inj_strs _ _ _ _ hd

/-! ## Registry lemmas -/

/-- Absence of a character is the same as `contains` being false. -/
theorem contains_false_iff (l : Str) (c : Char) :
    l.contains c = false ↔ c ∉ l := by
  simp [List.contains_eq_any_beq]

/-- The registry directory path begins with a slash. -/
theorem infoDirPath_slash : ∃ t, infoDirPath = '/' :: t := ⟨_, rfl⟩

/-- Joining the registry directory with an already-joined path is the
identity (`os.path.join` with an absolute second component). -/
theorem joinPath_absorb (n : Str) :
    joinPath infoDirPath (joinPath infoDirPath n) = joinPath infoDirPath n := by
  obtain ⟨t, ht⟩ := infoDirPath_slash
  simp only [joinPath]
  by_cases h : n.head? = some '/'
  · simp [h]
  · have habs : (infoDirPath ++ '/' :: n).head? = some '/' := by rw [ht]; rfl
    simp [h, habs]

/-- `childName` recovers the name of a well-shaped child path. -/
theorem childName_joinPath (name : Str) (h1 : name ≠ [])
    (h2 : name.contains '/' = false) :
    childName infoDirPath (joinPath infoDirPath name) = some name := by
  have hmem : '/' ∉ name := (contains_false_iff name '/').mp h2
  have hhead : name.head? ≠ some '/' := by
    cases name with
    | nil => simp
    | cons c s =>
      simp only [List.head?_cons, ne_eq, Option.some.injEq]
      intro hc
      exact hmem (hc ▸ List.mem_cons_self c s)
  rw [joinPath, if_neg hhead]
  unfold childName
  have happ : infoDirPath ++ '/' :: name = (infoDirPath ++ ['/']) ++ name := by
    simp
  rw [happ]
  rw [if_pos (List.isPrefixOf_iff_prefix.mpr (List.prefix_append _ _))]
  simp only [List.drop_left]
  rw [if_pos ⟨h1, by simpa using hmem⟩]

/-- A successful `childName` determines the path's decomposition. -/
theorem childName_some (dir p n : Str) (h : childName dir p = some n) :
    p = (dir ++ ['/']) ++ n ∧ n ≠ [] ∧ n.contains '/' = false := by
  unfold childName at h
  split_ifs at h with hpre hn
  simp only [Option.some.injEq] at h
  subst h
  refine ⟨?_, hn.1, by simpa using hn.2⟩
  exact (List.prefix_iff_eq_append.mp (List.isPrefixOf_iff_prefix.mp hpre)).symm

/-- With unique keys, `find?` on a key returns the stored pair. -/
theorem find?_key_nodup : ∀ (l : List (Str × Str)) (k v : Str),
    (l.map Prod.fst).Nodup → (k, v) ∈ l →
    l.find? (fun e => e.1 == k) = some (k, v)
  | [], k, v, _, hm => by simp at hm
  | (k', v') :: s, k, v, hnd, hm => by
    simp only [List.map_cons, List.nodup_cons] at hnd
    rcases List.mem_cons.mp hm with h | h
    · rw [← h]
      apply List.find?_cons_of_pos
      simp
    · have hk : k ∈ s.map Prod.fst := List.mem_map.mpr ⟨(k, v), h, rfl⟩
      have hne : k' ≠ k := fun he => hnd.1 (he ▸ hk)
      rw [List.find?_cons_of_neg]
      · exact find?_key_nodup s k v hnd.2 h
      · simp [hne]

/-- The directory listing is the name column of the registry files. -/
theorem listdir_eq_registryFiles (fs : FS) :
    listdir fs infoDirPath = (registryFiles fs).map Prod.fst := by
  rw [listdir, registryFiles]
  induction fs.files with
  | nil => rfl
  | cons e l ih =>
    simp only [List.filterMap_cons]
    cases hc : childName infoDirPath e.1 with
    | none => simpa using ih
    | some n => simpa using ih

/-- Under well-formedness, each registry file's contents are found at
its joined path. -/
theorem lookupFile_registry (fs : FS) (hw : fs.wf) (n c : Str)
    (h : (n, c) ∈ registryFiles fs) :
    lookupFile fs (joinPath infoDirPath n) = some c := by
  rw [registryFiles] at h
  obtain ⟨e, he, hme⟩ := List.mem_filterMap.mp h
  cases hc : childName infoDirPath e.1 with
  | none => rw [hc] at hme; simp at hme
  | some n' =>
    rw [hc] at hme
    simp only [Option.map_some', Option.some.injEq] at hme
    obtain ⟨rfl, rfl⟩ : n' = n ∧ e.2 = c := by
      have := Prod.mk.injEq n' e.2 n c ▸ hme
      exact ⟨congrArg Prod.fst hme, congrArg Prod.snd hme⟩
    obtain ⟨hdec, hne, hns⟩ := childName_some _ _ _ hc
    have hjoin : joinPath infoDirPath n' = e.1 := by
      have hhead : n'.head? ≠ some '/' := by
        have hmem : '/' ∉ n' := (contains_false_iff n' '/').mp hns
        cases n' with
        | nil => simp
        | cons a s =>
          simp only [List.head?_cons, ne_eq, Option.some.injEq]
          intro ha
          exact hmem (ha ▸ List.mem_cons_self a s)
      rw [joinPath, if_neg hhead, hdec]
      simp
    rw [hjoin, lookupFile]
    have : e = (e.1, e.2) := rfl
    rw [find?_key_nodup fs.files e.1 e.2 hw.nodup (this ▸ he)]
    rfl

/-- The `get_all` read loop over consistent (name, contents) pairs:
every parseable file contributes its descriptor, every malformed file
contributes a warning, and nothing is raised. -/
theorem getAllFromListing_pairs (fs : FS) : ∀ (pairs : List (Str × Str)),
    (∀ pr ∈ pairs, lookupFile fs (joinPath infoDirPath pr.1) = some pr.2) →
    getAllFromListing fs (pairs.map Prod.fst) =
      .ok (pairs.filterMap (fun pr => parseInfoFile pr.2),
        pairs.filterMap (fun pr => if (parseInfoFile pr.2).isSome then none
          else some (joinPath infoDirPath pr.1)))
  | [], _ => rfl
  | (n, c) :: t, h => by
    have hh := h (n, c) (List.mem_cons_self _ _)
    have ih := getAllFromListing_pairs fs t
      (fun pr hpr => h pr (List.mem_cons_of_mem _ hpr))
    simp only [List.map_cons, List.filterMap_cons]
    rw [getAllFromListing]
    rw [joinPath_absorb, hh, ih]
    cases hp : parseInfoFile c <;> simp [hp]

/-- A directory in `dirs` makes `os.path.exists` true. -/
theorem osPathExists_of_dir (fs : FS) (h : infoDirPath ∈ fs.dirs) :
    osPathExists fs infoDirPath = true := by
  rw [osPathExists]
  simp only [Bool.or_eq_true, List.any_eq_true]
  left
  simpa [List.contains_eq_any_beq, List.any_eq_true] using h

/-- Under well-formedness, `os.path.exists` on the registry directory
means the directory really is in `dirs`. -/
theorem dir_mem_of_osPathExists (fs : FS) (hw : fs.wf)
    (h : osPathExists fs infoDirPath = true) : infoDirPath ∈ fs.dirs := by
  rw [osPathExists] at h
  simp only [Bool.or_eq_true, List.any_eq_true] at h
  rcases h with h | ⟨e, he, hke⟩
  · simpa [List.contains_eq_any_beq, List.any_eq_true] using h
  · exfalso
    apply hw.dirNotFile
    exact List.mem_map.mpr ⟨e, he, by simpa using hke⟩

/-- `_get_info_dir` (sequential): returns the registry path, never
raises, creates the directory exactly when it is absent, and touches
nothing else. -/
theorem getInfoDir_spec (fs : FS) (hw : fs.wf) :
    ∃ fs1, getInfoDir fs = .ok (infoDirPath, fs1) ∧ fs1.files = fs.files ∧
      infoDirPath ∈ fs1.dirs ∧ fs1.wf ∧ (infoDirPath ∈ fs.dirs → fs1 = fs) := by
  rw [getInfoDir, getInfoDirSched]
  cases hex : osPathExists fs infoDirPath with
  | true =>
    refine ⟨fs, by simp [hex], rfl, dir_mem_of_osPathExists fs hw hex, hw, fun _ => rfl⟩
  | false =>
    refine ⟨{ fs with dirs := infoDirPath :: fs.dirs }, ?_, rfl, by simp, ?_, ?_⟩
    · simp only [hex, Bool.false_eq_true, if_false, id_eq]
      rw [osMkdir, if_neg (by simp [hex])]
    · exact ⟨hw.nodup, fun e he hce => List.mem_cons_of_mem _ (hw.dirExists e he hce),
        hw.dirNotFile⟩
    · intro hmem
      exact absurd (osPathExists_of_dir fs hmem) (by simp [hex])

/-- `listdir` depends only on the files. -/
theorem listdir_congr (fs1 fs2 : FS) (h : fs1.files = fs2.files) (d : Str) :
    listdir fs1 d = listdir fs2 d := by
  rw [listdir, listdir, h]

/-- `registryFiles` depends only on the files. -/
theorem registryFiles_congr (fs1 fs2 : FS) (h : fs1.files = fs2.files) :
    registryFiles fs1 = registryFiles fs2 := by
  rw [registryFiles, registryFiles, h]

/-- `lookupFile` depends only on the files. -/
theorem lookupFile_congr (fs1 fs2 : FS) (h : fs1.files = fs2.files) (p : Str) :
    lookupFile fs1 p = lookupFile fs2 p := by
  rw [lookupFile, lookupFile, h]

/-- `get_all` on a well-formed state: never raises, returns exactly the
descriptors of the files that parse (in listing order) and a warning
for each malformed file, and modifies nothing but possibly creating
the registry directory. -/
theorem getAll_spec (fs : FS) (hw : fs.wf) :
    ∃ fs1, getAll fs = .ok (regInfos fs, regWarns fs, fs1) ∧
      fs1.files = fs.files ∧ fs1.wf ∧
      (infoDirPath ∈ fs.dirs → fs1 = fs) := by
  obtain ⟨fs1, hdir, hfiles, hmem, hw1, hunch⟩ := getInfoDir_spec fs hw
  refine ⟨fs1, ?_, hfiles, hw1, hunch⟩
  have hpairs : ∀ pr ∈ registryFiles fs,
      lookupFile fs1 (joinPath infoDirPath pr.1) = some pr.2 := by
    intro pr hpr
    rw [lookupFile_congr fs1 fs hfiles]
    exact lookupFile_registry fs hw pr.1 pr.2 hpr
  have hl : listdir fs1 infoDirPath = (registryFiles fs).map Prod.fst := by
    rw [listdir_congr fs1 fs hfiles, listdir_eq_registryFiles]
  have hrun := getAllFromListing_pairs fs1 (registryFiles fs) hpairs
  rw [getAll, hdir]
  simp only [hl, hrun]
  rw [regInfos, regWarns]

/-- A slash-free nonempty name does not begin with a slash. -/
theorem head_ne_slash (n : Str) (h : n.contains '/' = false) :
    n.head? ≠ some '/' := by
  have hmem : '/' ∉ n := (contains_false_iff n '/').mp h
  cases n with
  | nil => simp
  | cons a s =>
    simp only [List.head?_cons, ne_eq, Option.some.injEq]
    intro ha
    exact hmem (ha ▸ List.mem_cons_self a s)

/-- The info file name contains no slash. -/
theorem pidName_no_slash (pid : Nat) : (pidName pid).contains '/' = false := by
  rw [contains_false_iff]
  intro hmem
  rw [pidName] at hmem
  rcases List.mem_append.mp hmem with h | h
  · rcases List.mem_append.mp h with h' | h'
    · revert h'
      decide
    · exact absurd (natChars_digits pid '/' h') (by decide)
  · revert h
    decide

/-- The info file name is nonempty. -/
theorem pidName_ne_nil (pid : Nat) : pidName pid ≠ [] := by
  rw [pidName]
  simp [show ("pid-".data : Str) = ['p', 'i', 'd', '-'] from rfl]

/-- The info file path differs from the registry directory path. -/
theorem infoFilePath_ne_dir (pid : Nat) : infoFilePath pid ≠ infoDirPath := by
  rw [infoFilePath, joinPath, if_neg (head_ne_slash _ (pidName_no_slash pid))]
  intro h
  have := congrArg List.length h
  simp only [List.length_append, List.length_cons] at this
  omega

/-- `setFile` preserves well-formedness when the target is a fresh
path under an existing registry directory or any non-directory path. -/
theorem setFile_wf (fs : FS) (hw : fs.wf) (p cts : Str)
    (hdirs : (childName infoDirPath p).isSome = true → infoDirPath ∈ fs.dirs)
    (hpd : p ≠ infoDirPath) : (setFile fs p cts).wf := by
  refine ⟨?_, ?_, ?_⟩
  · simp only [setFile, List.map_cons, List.nodup_cons]
    constructor
    · intro hmem
      obtain ⟨e, he, hke⟩ := List.mem_map.mp hmem
      have := List.of_mem_filter he
      simp [hke] at this
    · exact List.Nodup.sublist
        (List.Sublist.map Prod.fst (List.filter_sublist fs.files)) hw.nodup
  · intro e he hce
    simp only [setFile, List.mem_cons] at he
    rcases he with rfl | he
    · exact hdirs hce
    · exact hw.dirExists e (List.mem_of_mem_filter he) hce
  · simp only [setFile, List.map_cons, List.mem_cons]
    rintro (h | h)
    · exact hpd h.symm
    · obtain ⟨e, he, hke⟩ := List.mem_map.mp h
      exact hw.dirNotFile (List.mem_map.mpr ⟨e, List.mem_of_mem_filter he, hke⟩)

/-- `write_info_file`: never raises; afterwards the state is
well-formed and the registry contains the canonical serialization of
the descriptor under the current process's file name. -/
theorem writeInfoFile_spec (pid : Nat) (info : TensorboardInfo) (fs : FS)
    (hw : fs.wf) :
    ∃ fs', writeInfoFile pid info fs = .ok fs' ∧ fs'.wf ∧
      (pidName pid, infoFileContents info) ∈ registryFiles fs' := by
  obtain ⟨fs1, hdir, hfiles, hmem, hw1, _⟩ := getInfoDir_spec fs hw
  refine ⟨setFile fs1 (infoFilePath pid) (infoFileContents info), ?_, ?_, ?_⟩
  · rw [writeInfoFile, hdir]
  · exact setFile_wf fs1 hw1 _ _ (fun _ => hmem) (infoFilePath_ne_dir pid)
  · apply List.mem_filterMap.mpr
    refine ⟨(infoFilePath pid, infoFileContents info), by simp [setFile], ?_⟩
    rw [infoFilePath, childName_joinPath _ (pidName_ne_nil pid) (pidName_no_slash pid)]
    rfl

/-! ## Instance finder lemmas -/

/-- The finder returns nothing exactly when no descriptor matches. -/
theorem selectMatch_none_iff (key : String) (infos : List TensorboardInfo) :
    selectMatch key infos = none ↔ ∀ i ∈ infos, i.cache_key ≠ key := by
  rw [selectMatch, List.head?_eq_none_iff]
  constructor
  · intro h i hi hk
    have hperm := List.perm_insertionSort
      (fun (a b : TensorboardInfo) => a.port ≤ b.port)
      (infos.filter (fun i => i.cache_key == key))
    rw [h] at hperm
    have hfil : infos.filter (fun i => i.cache_key == key) = [] :=
      hperm.symm.eq_nil
    have hmem : i ∈ infos.filter (fun i => i.cache_key == key) :=
      List.mem_filter.mpr ⟨hi, by simp [hk]⟩
    rw [hfil] at hmem
    simp at hmem
  · intro h
    have hfil : infos.filter (fun i => i.cache_key == key) = [] :=
      List.filter_eq_nil_iff.mpr (fun i hi => by simp [h i hi])
    rw [hfil]
    rfl

/-- A returned descriptor is a matching descriptor of minimal port. -/
theorem selectMatch_some_spec (key : String) (infos : List TensorboardInfo)
    (m : TensorboardInfo) (h : selectMatch key infos = some m) :
    m ∈ infos ∧ m.cache_key = key ∧
      ∀ i ∈ infos, i.cache_key = key → m.port ≤ i.port := by
  rw [selectMatch] at h
  obtain ⟨ys, hys⟩ := List.head?_eq_some_iff.mp h
  have hperm := List.perm_insertionSort
    (fun (a b : TensorboardInfo) => a.port ≤ b.port)
    (infos.filter (fun i => i.cache_key == key))
  have hsorted := List.sorted_insertionSort
    (fun (a b : TensorboardInfo) => a.port ≤ b.port)
    (infos.filter (fun i => i.cache_key == key))
  rw [hys] at hperm hsorted
  have hmmem : m ∈ infos.filter (fun i => i.cache_key == key) :=
    hperm.mem_iff.mp (List.mem_cons_self m ys)
  obtain ⟨hmi, hmk⟩ := List.mem_filter.mp hmmem
  refine ⟨hmi, by simpa using hmk, ?_⟩
  intro i hi hik
  have himem : i ∈ m :: ys := hperm.mem_iff.mpr
    (List.mem_filter.mpr ⟨hi, by simp [hik]⟩)
  rcases List.mem_cons.mp himem with rfl | hiys
  · omega
  · exact List.rel_of_sorted_cons hsorted i hiys

/-- With a unique minimal-port match, the finder's result does not
depend on the order of the descriptor list. -/
theorem selectMatch_unique_perm (key : String) (infos infos' : List TensorboardInfo)
    (m : TensorboardInfo) (hperm : infos'.Perm infos)
    (hm : m ∈ infos) (hkey : m.cache_key = key)
    (huniq : ∀ i ∈ infos, i.cache_key = key → i ≠ m → m.port < i.port) :
    selectMatch key infos' = some m := by
  cases hsel : selectMatch key infos' with
  | none =>
    exfalso
    exact (selectMatch_none_iff key infos').mp hsel m (hperm.mem_iff.mpr hm) hkey
  | some m' =>
    obtain ⟨hm'i, hm'k, hmin⟩ := selectMatch_some_spec key infos' m' hsel
    have hm'infos : m' ∈ infos := hperm.mem_iff.mp hm'i
    by_cases he : m' = m
    · rw [he]
    · have h1 : m'.port ≤ m.port := hmin m (hperm.mem_iff.mpr hm) hkey
      have h2 : m.port < m'.port := huniq m' hm'infos hm'k he
      omega

/-! ## Launch coordinator lemmas -/

/-- Soundness of the start-time guard: a `Launched` result of the poll
loop always carries a descriptor whose pid is the child's and whose
start time is at or after the recorded spawn time. -/
theorem pollLoop_launched_guard (childPid startTime : Int) (so se : String) :
    ∀ (sched : List PollObs) (info : TensorboardInfo),
    pollLoop childPid startTime so se sched = .ok (.launched info) →
    info.pid = childPid ∧ startTime ≤ info.start_time
  | [], info, h => by simp [pollLoop] at h
  | obs :: rest, info, h => by
    rw [pollLoop] at h
    split at h
    · simp at h
    · split at h
      · simp at h
      · split at h
        · next i hfind =>
          simp only [Except.ok.injEq, StartResult.launched.injEq] at h
          subst h
          have hp := List.find?_some hfind
          simp only [launchGuard, Bool.and_eq_true, beq_iff_eq,
            decide_eq_true_eq] at hp
          exact hp
        · exact pollLoop_launched_guard childPid startTime so se rest info h

/-- Precise completeness of the poll loop: at the first iteration whose
scan finds a matching descriptor (the child not having exited at or
before it, and earlier scans having succeeded without a match), the
loop returns `Launched` with exactly that descriptor. -/
theorem pollLoop_finds (childPid startTime : Int) (so se : String)
    (info : TensorboardInfo) :
    ∀ (pre : List PollObs) (obs : PollObs) (post : List PollObs),
    (∀ o ∈ pre, o.pollResult = none ∧
      ∃ infos w fs', getAll o.fsAtTick = .ok (infos, w, fs') ∧
        infos.find? (launchGuard childPid startTime) = none) →
    obs.pollResult = none →
    (∃ infos w fs', getAll obs.fsAtTick = .ok (infos, w, fs') ∧
      infos.find? (launchGuard childPid startTime) = some info) →
    pollLoop childPid startTime so se (pre ++ obs :: post) =
      .ok (.launched info)
  | [], obs, post, _, hobs, ⟨infos, w, fs', hga, hfind⟩ => by
    rw [List.nil_append, pollLoop]
    simp only [hobs, hga, hfind]
  | o :: pre, obs, post, hpre, hobs, hscan => by
    obtain ⟨ho, infos, w, fs', hga, hfind⟩ := hpre o (List.mem_cons_self o pre)
    rw [List.cons_append, pollLoop]
    simp only [ho, hga, hfind]
    exact pollLoop_finds childPid startTime so se info pre obs post
      (fun o' ho' => hpre o' (List.mem_cons_of_mem _ ho')) hobs hscan

/-- Soundness of the start-time guard at the `start` level: whenever
`start` returns `Launched`, the carried descriptor's pid is the
spawned child's and its start time is at or after the recorded spawn
time. -/
theorem start_launched_sound (arguments : PyVal) (env : StartEnv) (fs : FS)
    (info : TensorboardInfo) (fs' : FS) (eff : List SideEffect)
    (h : start arguments env fs = .ok (.launched info, fs', eff)) :
    info.pid = env.childPid ∧ env.startTime ≤ info.start_time := by
  rw [start] at h
  split at h
  · simp at h
  · split at h
    · simp at h
    · split at h
      · simp at h
      · split at h
        · simp at h
        · next r hr =>
          simp only [Except.ok.injEq, Prod.mk.injEq] at h
          rw [h.1] at hr
          exact pollLoop_launched_guard env.childPid env.startTime
            env.stdoutContent env.stderrContent env.sched info hr

/-- `start` on a spawning run (no reuse match) returns exactly the poll
loop's verdict; in particular, at the first tick whose scan finds a
matching descriptor it returns `Launched` with that descriptor. -/
theorem start_spawn_launches (arguments : PyVal) (env : StartEnv) (fs : FS)
    (key : String) (info : TensorboardInfo)
    (hkey : cacheKey env.cwd arguments = .ok key) (hw : fs.wf)
    (hnomatch : selectMatch key (regInfos fs) = none)
    (pre : List PollObs) (obs : PollObs) (post : List PollObs)
    (hsched : env.sched = pre ++ obs :: post)
    (hpre : ∀ o ∈ pre, o.pollResult = none ∧
      ∃ infos w fs', getAll o.fsAtTick = .ok (infos, w, fs') ∧
        infos.find? (launchGuard env.childPid env.startTime) = none)
    (hobs : obs.pollResult = none)
    (hscan : ∃ infos w fs', getAll obs.fsAtTick = .ok (infos, w, fs') ∧
      infos.find? (launchGuard env.childPid env.startTime) = some info) :
    ∃ fsOut, start arguments env fs = .ok (.launched info, fsOut,
      [.mkstemp "tensorboard-stdout-", .mkstemp "tensorboard-stderr-",
       .spawned ("tensorboard" :: pyArgStrings arguments)]) := by
  obtain ⟨fs1, hga, _, _, _⟩ := getAll_spec fs hw
  have hpoll := pollLoop_finds env.childPid env.startTime env.stdoutContent
    env.stderrContent info pre obs post hpre hobs hscan
  rw [← hsched] at hpoll
  refine ⟨setFile (setFile fs1 env.stdoutPath []) env.stderrPath [], ?_⟩
  rw [start]
  simp only [hkey, hga, hnomatch, hpoll]

/-- When the probe finds a reusable instance, `start` returns `Reused`
with that descriptor, spawns nothing, creates nothing, and leaves the
filesystem exactly as it was. -/
theorem start_reused_frame (arguments : PyVal) (env : StartEnv) (fs : FS)
    (key : String) (m : TensorboardInfo)
    (hw : fs.wf) (hkey : cacheKey env.cwd arguments = .ok key)
    (hsel : selectMatch key (regInfos fs) = some m) :
    start arguments env fs = .ok (.reused m, fs, []) := by
  obtain ⟨fs1, hga, hfiles, hw1, hunch⟩ := getAll_spec fs hw
  have hne : registryFiles fs ≠ [] := by
    intro h0
    have : regInfos fs = [] := by rw [regInfos, h0]; rfl
    rw [this] at hsel
    have : selectMatch key [] = none := rfl
    rw [this] at hsel
    cases hsel
  obtain ⟨pr, hpr⟩ := List.exists_mem_of_ne_nil _ hne
  obtain ⟨e, he, hee⟩ := List.mem_filterMap.mp (by rw [registryFiles] at hpr; exact hpr)
  have hsome : (childName infoDirPath e.1).isSome = true := by
    cases hc : childName infoDirPath e.1 with
    | none => rw [hc] at hee; simp at hee
    | some n => rfl
  have hmem : infoDirPath ∈ fs.dirs := hw.dirExists e he hsome
  have hfs1 : fs1 = fs := hunch hmem
  rw [start]
  simp only [hkey, hga, hsel, hfs1]

/-- A listed file that cannot be opened aborts the whole scan with
`FileNotFoundError`, discarding every descriptor. -/
theorem getAllFromListing_missing (fs : FS) :
    ∀ (listing : List Str),
    (∃ name ∈ listing, lookupFile fs (joinPath infoDirPath name) = none) →
    getAllFromListing fs listing = .error (.osError ENOENT)
  | [], h => by simp at h
  | name :: rest, h => by
    rw [getAllFromListing]
    simp only [joinPath_absorb]
    obtain ⟨n, hn, hln⟩ := h
    rcases List.mem_cons.mp hn with rfl | hn'
    · simp only [hln]
    · cases hl : lookupFile fs (joinPath infoDirPath name) with
      | none => rfl
      | some c =>
        have ih := getAllFromListing_missing fs rest ⟨n, hn', hln⟩
        simp only [ih]

/-! ## Claim theorems -/

/-- C1: the claim says registry-directory creation is idempotent and
race-tolerant (creation must not fail when another process creates the
directory between the existence check and the creation attempt).  The
code creates the directory when absent and a second sequential call is
a no-op, but the check-then-`mkdir` sequence in `_get_info_dir` does
not swallow the race: with the directory created concurrently between
the `os.path.exists` check and `os.mkdir`, `os.mkdir` raises
`FileExistsError` (errno `EEXIST`), which propagates.  This theorem
evaluates the code at that failing schedule. -/
theorem c1_directory_creation_race :
    getInfoDir ⟨[], []⟩ = .ok (infoDirPath, ⟨[infoDirPath], []⟩) ∧
    getInfoDir ⟨[infoDirPath], []⟩ = .ok (infoDirPath, ⟨[infoDirPath], []⟩) ∧
    getInfoDirSched (fun fs => { fs with dirs := infoDirPath :: fs.dirs })
      ⟨[], []⟩ = .error (.osError EEXIST) :=
  ⟨by decide, by decide, by decide⟩

/-- C4: corrupt-entry tolerance of the registry scan: on a well-formed
filesystem, `get_all` never raises and returns exactly the descriptors
of the files that parse (`regInfos`), excluding each malformed entry
and warning about it (`regWarns`); one malformed entry never aborts
the scan of the remaining files. -/
theorem c4_corrupt_entry_tolerance (fs : FS) (hw : fs.wf) :
    ∃ fs1, getAll fs = .ok (regInfos fs, regWarns fs, fs1) := by
  obtain ⟨fs1, h, _⟩ := getAll_spec fs hw
  exact ⟨fs1, h⟩

set_option maxRecDepth 10000 in
/-- Witness for C4: a registry with one well-formed descriptor file and
one file with invalid contents yields exactly the one descriptor plus
one warning, and does not raise. -/
theorem c4_corrupt_entry_tolerance_witness :
    regInfos ⟨[infoDirPath],
      [(infoFilePath 7, infoFileContents ⟨"1.0", 100, 7, 6006, "", "", "", "K"⟩),
       (joinPath infoDirPath "junk.info".data, "oops".data)]⟩ =
      [⟨"1.0", 100, 7, 6006, "", "", "", "K"⟩] ∧
    regWarns ⟨[infoDirPath],
      [(infoFilePath 7, infoFileContents ⟨"1.0", 100, 7, 6006, "", "", "", "K"⟩),
       (joinPath infoDirPath "junk.info".data, "oops".data)]⟩ =
      [joinPath infoDirPath "junk.info".data] ∧
    ∃ fs1, getAll ⟨[infoDirPath],
      [(infoFilePath 7, infoFileContents ⟨"1.0", 100, 7, 6006, "", "", "", "K"⟩),
       (joinPath infoDirPath "junk.info".data, "oops".data)]⟩ =
      .ok (regInfos ⟨[infoDirPath],
        [(infoFilePath 7, infoFileContents ⟨"1.0", 100, 7, 6006, "", "", "", "K"⟩),
         (joinPath infoDirPath "junk.info".data, "oops".data)]⟩,
        regWarns ⟨[infoDirPath],
        [(infoFilePath 7, infoFileContents ⟨"1.0", 100, 7, 6006, "", "", "", "K"⟩),
         (joinPath infoDirPath "junk.info".data, "oops".data)]⟩, fs1) :=
  ⟨by decide, by decide,
    c4_corrupt_entry_tolerance _ ⟨by decide, by decide, by decide⟩⟩

/-- C6: registry round-trip: writing any descriptor and then listing
all descriptors (with no interleaving writes or removals) yields a
result set containing an entry equal field-for-field to the descriptor
written. -/
theorem c6_registry_roundtrip (pid : Nat) (info : TensorboardInfo) (fs : FS)
    (hw : fs.wf) :
    ∃ fs' infos warns fs'', writeInfoFile pid info fs = .ok fs' ∧
      getAll fs' = .ok (infos, warns, fs'') ∧ info ∈ infos := by
  obtain ⟨fs', hwrite, hw', hmem⟩ := writeInfoFile_spec pid info fs hw
  obtain ⟨fs'', hga, _⟩ := getAll_spec fs' hw'
  refine ⟨fs', regInfos fs', regWarns fs', fs'', hwrite, hga, ?_⟩
  rw [regInfos]
  exact List.mem_filterMap.mpr
    ⟨(pidName pid, infoFileContents info), hmem, parseInfoFile_roundtrip info⟩

/-- Witness for C6: a concrete descriptor written on an empty
filesystem is recovered by `get_all`. -/
theorem c6_registry_roundtrip_witness :
    ∃ fs' infos warns fs'',
      writeInfoFile 42 ⟨"1.13.1", 1555624767, 42, 6006, "", "/logs", "", "ck"⟩
        ⟨[], []⟩ = .ok fs' ∧
      getAll fs' = .ok (infos, warns, fs'') ∧
      (⟨"1.13.1", 1555624767, 42, 6006, "", "/logs", "", "ck"⟩ :
        TensorboardInfo) ∈ infos :=
  c6_registry_roundtrip 42 _ _ ⟨by decide, by decide, by decide⟩

/-- C7: cache-key input validation: a non-sequence `arguments` value
(a bare string rather than a list or tuple) makes `cache_key` return a
descriptive `TypeError` immediately; `start` called with such a value
fails with the same `TypeError` before touching the filesystem (the
error is raised before any filesystem operation, so no state change
or side effect occurs). -/
theorem c7_cache_key_type_error :
    (∀ (wd s : String), cacheKey wd (.str s) =
      .error (.typeError (cacheKeyTypeErrMsg (.str s)))) ∧
    (∀ (s : String) (env : StartEnv) (fs : FS), start (.str s) env fs =
      .error (.typeError (cacheKeyTypeErrMsg (.str s)))) := by
  constructor
  · intro wd s
    rfl
  · intro s env fs
    rfl

/-- C8: the cache key is a pure function of the working directory and
the argument sequence: lists and tuples with the same elements yield
the same key, and equal inputs always yield equal keys (no other state
influences the result). -/
theorem c8_cache_key_pure :
    (∀ (wd : String) (xs : List PyVal),
      cacheKey wd (.list xs) = cacheKey wd (.tuple xs)) ∧
    (∀ (wd₁ wd₂ : String) (v₁ v₂ : PyVal), wd₁ = wd₂ → v₁ = v₂ →
      cacheKey wd₁ v₁ = cacheKey wd₂ v₂) := by
  constructor
  · intro wd xs
    rw [cacheKey, cacheKey, dumpsDatum, dumpsDatum, dumpsVal, dumpsVal]
  · intro wd₁ wd₂ v₁ v₂ h₁ h₂
    rw [h₁, h₂]

/-- Witness for C8: a concrete list and tuple of the same strings get
the same cache key, and a repeated identical call returns the same
key. -/
theorem c8_cache_key_pure_witness :
    cacheKey "/w" (.list [.str "--logdir", .str "x"]) =
      cacheKey "/w" (.tuple [.str "--logdir", .str "x"]) ∧
    cacheKey "/w" (.list []) = cacheKey "/w" (.list []) :=
  ⟨c8_cache_key_pure.1 "/w" [.str "--logdir", .str "x"],
   c8_cache_key_pure.2 "/w" "/w" (.list []) (.list []) rfl rfl⟩

/-- C9: cache-key sensitivity: swapping two distinct arguments changes
the key (argument order is significant), and changing the working
directory changes the key.  Both follow from injectivity of the
encoding on (working directory, argument list) pairs. -/
theorem c9_cache_key_sensitivity :
    (∀ (wd : String) (pre mid post : List String) (a b : String), a ≠ b →
      cacheKey wd (.list ((pre ++ a :: mid ++ b :: post).map PyVal.str)) ≠
      cacheKey wd (.list ((pre ++ b :: mid ++ a :: post).map PyVal.str))) ∧
    (∀ (wd wd' : String) (args : List String), wd ≠ wd' →
      cacheKey wd (.list (args.map PyVal.str)) ≠
      cacheKey wd' (.list (args.map PyVal.str))) := by
  constructor
  · intro wd pre mid post a b hab heq
    have hl := (cacheKey_inj_strs wd wd _ _ heq).2
    simp only [List.append_assoc, List.cons_append] at hl
    have hl' := List.append_cancel_left hl
    simp only [List.cons.injEq] at hl'
    exact hab hl'.1
  · intro wd wd' args hww heq
    exact hww (cacheKey_inj_strs wd wd' args args heq).1

/-- Witness for C9: swapping the two arguments of a concrete
invocation changes the key, and moving the same invocation to a
different working directory changes the key. -/
theorem c9_cache_key_sensitivity_witness :
    cacheKey "/w" (.list (["x", "y"].map PyVal.str)) ≠
      cacheKey "/w" (.list (["y", "x"].map PyVal.str)) ∧
    cacheKey "/w" (.list (["--logdir"].map PyVal.str)) ≠
      cacheKey "/v" (.list (["--logdir"].map PyVal.str)) :=
  ⟨c9_cache_key_sensitivity.1 "/w" [] [] [] "x" "y" (by decide),
   c9_cache_key_sensitivity.2 "/w" "/v" ["--logdir"] (by decide)⟩

/-- C10: in `get_all`, the `open` call sits outside the `try` block,
so a descriptor file that disappears between `os.listdir` and `open`
makes the whole scan raise (`FileNotFoundError`, errno `ENOENT`)
rather than being skipped with a warning — discarding descriptors from
files that would have parsed. -/
theorem c10_open_error_propagates (fs : FS) (listing : List Str)
    (h : ∃ name ∈ listing, lookupFile fs (joinPath infoDirPath name) = none) :
    getAllFromListing fs listing = .error (.osError ENOENT) :=
  getAllFromListing_missing fs listing h

set_option maxRecDepth 10000 in
/-- Witness for C10: with one well-formed descriptor file on disk and a
listing that also names a since-deleted file, the scan raises `ENOENT`
even though the surviving file would have parsed. -/
theorem c10_open_error_propagates_witness :
    parseInfoFile (infoFileContents ⟨"1.0", 100, 7, 6006, "", "", "", "K"⟩) =
      some ⟨"1.0", 100, 7, 6006, "", "", "", "K"⟩ ∧
    getAllFromListing
      ⟨[infoDirPath], [(infoFilePath 7,
        infoFileContents ⟨"1.0", 100, 7, 6006, "", "", "", "K"⟩)]⟩
      [pidName 7, "gone.info".data] = .error (.osError ENOENT) :=
  ⟨by decide,
   c10_open_error_propagates _ _ ⟨"gone.info".data, by decide, by decide⟩⟩

/-- C2: the start-time guard of the launch coordinator.  Soundness: any
`Launched` result of `start` carries a descriptor whose pid equals the
spawned child's pid and whose `start_time` is at or after the recorded
spawn time (a stale file left by a dead process with a recycled pid but
an older start time is never accepted).  Completeness: on a spawning
run, at the first poll tick where the child is still alive and the
registry scan finds a descriptor passing the guard, `start` returns
`Launched` with exactly that descriptor. -/
theorem c2_start_time_guard :
    (∀ (arguments : PyVal) (env : StartEnv) (fs : FS)
      (info : TensorboardInfo) (fs' : FS) (eff : List SideEffect),
      start arguments env fs = .ok (.launched info, fs', eff) →
      info.pid = env.childPid ∧ env.startTime ≤ info.start_time) ∧
    (∀ (arguments : PyVal) (env : StartEnv) (fs : FS) (key : String)
      (info : TensorboardInfo),
      cacheKey env.cwd arguments = .ok key → fs.wf →
      selectMatch key (regInfos fs) = none →
      ∀ (pre : List PollObs) (obs : PollObs) (post : List PollObs),
      env.sched = pre ++ obs :: post →
      (∀ o ∈ pre, o.pollResult = none ∧
        ∃ infos w fs1, getAll o.fsAtTick = .ok (infos, w, fs1) ∧
          infos.find? (launchGuard env.childPid env.startTime) = none) →
      obs.pollResult = none →
      (∃ infos w fs1, getAll obs.fsAtTick = .ok (infos, w, fs1) ∧
        infos.find? (launchGuard env.childPid env.startTime) = some info) →
      ∃ fsOut, start arguments env fs = .ok (.launched info, fsOut,
        [.mkstemp "tensorboard-stdout-", .mkstemp "tensorboard-stderr-",
         .spawned ("tensorboard" :: pyArgStrings arguments)])) :=
  ⟨start_launched_sound,
   fun arguments env fs key info hkey hw hnm pre obs post hs hpre hobs hscan =>
     start_spawn_launches arguments env fs key info hkey hw hnm
       pre obs post hs hpre hobs hscan⟩

set_option maxRecDepth 10000 in
/-- Witness for C2: on an empty registry, a spawn whose first poll tick
shows a live child and a registry holding a descriptor with the child's
pid 7 and a start time 100 at or after the spawn time 99, `start`
returns `Launched` with that descriptor after the two `mkstemp` calls
and the spawn. -/
theorem c2_start_time_guard_witness :
    ∃ fsOut, start (.list [])
      ⟨"/w", 7, 99, "/tmp/o".data, "/tmp/e".data, "out", "err",
        [⟨none, ⟨[infoDirPath],
          [(infoFilePath 7,
            infoFileContents ⟨"1.0", 100, 7, 6006, "", "", "", "K"⟩)]⟩⟩]⟩
      ⟨[infoDirPath], []⟩ =
    .ok (.launched ⟨"1.0", 100, 7, 6006, "", "", "", "K"⟩, fsOut,
      [.mkstemp "tensorboard-stdout-", .mkstemp "tensorboard-stderr-",
       .spawned ("tensorboard" :: pyArgStrings (.list []))]) :=
  c2_start_time_guard.2 (.list [])
    ⟨"/w", 7, 99, "/tmp/o".data, "/tmp/e".data, "out", "err",
      [⟨none, ⟨[infoDirPath],
        [(infoFilePath 7,
          infoFileContents ⟨"1.0", 100, 7, 6006, "", "", "", "K"⟩)]⟩⟩]⟩
    ⟨[infoDirPath], []⟩
    "eyJhcmd1bWVudHMiOltdLCJ3b3JraW5nX2RpcmVjdG9yeSI6Ii93In0="
    ⟨"1.0", 100, 7, 6006, "", "", "", "K"⟩
    (by decide) ⟨by decide, by decide, by decide⟩ (by decide)
    [] _ [] rfl (by simp) rfl
    ⟨[⟨"1.0", 100, 7, 6006, "", "", "", "K"⟩], [],
     ⟨[infoDirPath],
       [(infoFilePath 7,
         infoFileContents ⟨"1.0", 100, 7, 6006, "", "", "", "K"⟩)]⟩,
     by decide, by decide⟩

/-- C3: instance reuse: when the probe finds a compatible running
process (a registry descriptor whose cache key equals the one computed
for this invocation), `start` returns `Reused` with that descriptor,
performs no side effect (no temp files, no spawn), and leaves the
filesystem unchanged. -/
theorem c3_reuse_no_spawn (arguments : PyVal) (env : StartEnv) (fs : FS)
    (key : String) (m : TensorboardInfo) (hw : fs.wf)
    (hkey : cacheKey env.cwd arguments = .ok key)
    (hsel : selectMatch key (regInfos fs) = some m) :
    start arguments env fs = .ok (.reused m, fs, []) :=
  start_reused_frame arguments env fs key m hw hkey hsel

set_option maxRecDepth 10000 in
/-- Witness for C3: with a registry descriptor carrying exactly the
cache key of `start("--logdir x")` from `/w`, `start` reuses it with no
effects and no filesystem change. -/
theorem c3_reuse_no_spawn_witness :
    start (.list [.str "--logdir", .str "x"])
      ⟨"/w", 0, 0, [], [], "", "", []⟩
      ⟨[infoDirPath], [(infoFilePath 12, infoFileContents
        ⟨"1.0", 50, 12, 6006, "", "x", "",
         "eyJhcmd1bWVudHMiOlsiLS1sb2dkaXIiLCJ4Il0sIndvcmtpbmdfZGlyZWN0b3J5IjoiL3cifQ=="⟩)]⟩ =
    .ok (.reused ⟨"1.0", 50, 12, 6006, "", "x", "",
      "eyJhcmd1bWVudHMiOlsiLS1sb2dkaXIiLCJ4Il0sIndvcmtpbmdfZGlyZWN0b3J5IjoiL3cifQ=="⟩,
      ⟨[infoDirPath], [(infoFilePath 12, infoFileContents
        ⟨"1.0", 50, 12, 6006, "", "x", "",
         "eyJhcmd1bWVudHMiOlsiLS1sb2dkaXIiLCJ4Il0sIndvcmtpbmdfZGlyZWN0b3J5IjoiL3cifQ=="⟩)]⟩,
      []) :=
  c3_reuse_no_spawn (.list [.str "--logdir", .str "x"])
    ⟨"/w", 0, 0, [], [], "", "", []⟩ _
    "eyJhcmd1bWVudHMiOlsiLS1sb2dkaXIiLCJ4Il0sIndvcmtpbmdfZGlyZWN0b3J5IjoiL3cifQ=="
    _ ⟨by decide, by decide, by decide⟩ (by decide) (by decide)

set_option maxRecDepth 10000 in
/-- C5 counterexample: the claim says the finder's result is independent
of directory-listing order.  With two descriptors sharing the target
cache key AND the lowest port (tie), Python's stable sort preserves
listing order and the finder returns whichever the listing yields
first: permuting the two files changes the result. -/
theorem c5_order_dependence_counterexample :
    ([(infoFilePath 1, infoFileContents ⟨"1", 0, 1, 6006, "", "", "", "K"⟩),
      (infoFilePath 2, infoFileContents ⟨"1", 0, 2, 6006, "", "", "", "K"⟩)]
     : List (Str × Str)).Perm
      [(infoFilePath 2, infoFileContents ⟨"1", 0, 2, 6006, "", "", "", "K"⟩),
       (infoFilePath 1, infoFileContents ⟨"1", 0, 1, 6006, "", "", "", "K"⟩)] ∧
    findMatchingInstance "K" ⟨[infoDirPath],
      [(infoFilePath 1, infoFileContents ⟨"1", 0, 1, 6006, "", "", "", "K"⟩),
       (infoFilePath 2, infoFileContents ⟨"1", 0, 2, 6006, "", "", "", "K"⟩)]⟩ =
      .ok (some ⟨"1", 0, 1, 6006, "", "", "", "K"⟩, ⟨[infoDirPath],
        [(infoFilePath 1, infoFileContents ⟨"1", 0, 1, 6006, "", "", "", "K"⟩),
         (infoFilePath 2, infoFileContents ⟨"1", 0, 2, 6006, "", "", "", "K"⟩)]⟩) ∧
    findMatchingInstance "K" ⟨[infoDirPath],
      [(infoFilePath 2, infoFileContents ⟨"1", 0, 2, 6006, "", "", "", "K"⟩),
       (infoFilePath 1, infoFileContents ⟨"1", 0, 1, 6006, "", "", "", "K"⟩)]⟩ =
      .ok (some ⟨"1", 0, 2, 6006, "", "", "", "K"⟩, ⟨[infoDirPath],
        [(infoFilePath 2, infoFileContents ⟨"1", 0, 2, 6006, "", "", "", "K"⟩),
         (infoFilePath 1, infoFileContents ⟨"1", 0, 1, 6006, "", "", "", "K"⟩)]⟩) ∧
    (⟨"1", 0, 1, 6006, "", "", "", "K"⟩ : TensorboardInfo) ≠
      ⟨"1", 0, 2, 6006, "", "", "", "K"⟩ :=
  ⟨by decide, by decide, by decide, by decide⟩

/-- C5 (amended): the finder returns the scan's selection; it returns
`none` iff no valid descriptor has the target cache key; any returned
descriptor matches the key and has minimal port among the matches; and
whenever one matching descriptor has strictly the lowest port, that
descriptor is returned regardless of listing order.  (As frozen, the
claim fails: with two matching descriptors tied at the lowest port the
result depends on listing order — see the counterexample.) -/
theorem c5_lowest_port_selection :
    (∀ (key : String) (fs : FS), fs.wf → ∃ fs1,
      findMatchingInstance key fs = .ok (selectMatch key (regInfos fs), fs1)) ∧
    (∀ (key : String) (infos : List TensorboardInfo),
      selectMatch key infos = none ↔ ∀ i ∈ infos, i.cache_key ≠ key) ∧
    (∀ (key : String) (infos : List TensorboardInfo) (m : TensorboardInfo),
      selectMatch key infos = some m →
      m ∈ infos ∧ m.cache_key = key ∧
        ∀ i ∈ infos, i.cache_key = key → m.port ≤ i.port) ∧
    (∀ (key : String) (infos infos' : List TensorboardInfo)
      (m : TensorboardInfo), infos'.Perm infos → m ∈ infos →
      m.cache_key = key →
      (∀ i ∈ infos, i.cache_key = key → i ≠ m → m.port < i.port) →
      selectMatch key infos' = some m) := by
  refine ⟨?_, selectMatch_none_iff, selectMatch_some_spec, selectMatch_unique_perm⟩
  intro key fs hw
  obtain ⟨fs1, hga, _⟩ := getAll_spec fs hw
  exact ⟨fs1, by rw [findMatchingInstance, hga]⟩

set_option maxRecDepth 10000 in
/-- Witness for the amended C5: the spec's 9001/9002/9003 scenario —
three descriptors sharing a key with distinct ports, presented in an
order other than sorted, select the port-9001 descriptor; and on a
concrete filesystem the finder returns the scan's selection. -/
theorem c5_lowest_port_selection_witness :
    selectMatch "K"
      [⟨"1", 0, 2, 9002, "", "", "", "K"⟩,
       ⟨"1", 0, 1, 9001, "", "", "", "K"⟩,
       ⟨"1", 0, 3, 9003, "", "", "", "K"⟩] =
      some ⟨"1", 0, 1, 9001, "", "", "", "K"⟩ ∧
    ∃ fs1, findMatchingInstance "K"
      ⟨[infoDirPath], [(infoFilePath 1,
        infoFileContents ⟨"1", 0, 1, 9001, "", "", "", "K"⟩)]⟩ =
      .ok (selectMatch "K" (regInfos ⟨[infoDirPath], [(infoFilePath 1,
        infoFileContents ⟨"1", 0, 1, 9001, "", "", "", "K"⟩)]⟩), fs1) :=
  ⟨c5_lowest_port_selection.2.2.2 "K"
    [⟨"1", 0, 1, 9001, "", "", "", "K"⟩,
     ⟨"1", 0, 2, 9002, "", "", "", "K"⟩,
     ⟨"1", 0, 3, 9003, "", "", "", "K"⟩]
    [⟨"1", 0, 2, 9002, "", "", "", "K"⟩,
     ⟨"1", 0, 1, 9001, "", "", "", "K"⟩,
     ⟨"1", 0, 3, 9003, "", "", "", "K"⟩]
    ⟨"1", 0, 1, 9001, "", "", "", "K"⟩
    (by decide) (by decide) rfl (by decide),
   c5_lowest_port_selection.1 "K" _ ⟨by decide, by decide, by decide⟩⟩
